import Mathlib

set_option linter.unusedVariables false
set_option maxRecDepth 8000

/-!
# Verification of the BuilderGPT preview pipeline

A shallow embedding of the voxel-structure preview pipeline
(`src/app/pipeline/`): schematic decoding (`loader.py`), block-descriptor
identity (`types.py`), texture resolution (`model_baker.py`), face culling and
mesh assembly (`mesher.py`), atlas packing (`atlas.py`) and GLB container
serialization (`gltf_builder.py`).

Python strings are modelled as `List Char`, Python `dict`s as association
lists with insertion order and in-place overwrite, machine integers as
`Nat`/`Int`, and float arithmetic on the small dyadic values appearing in the
pipeline as exact rational arithmetic over `ℚ`.
-/

namespace BuilderGPT

/-- The character-list representation of a string literal. -/
def chars (s : String) : List Char := s.data

/-- Python `c in s` for a single-character needle. -/
def hasChar (c : Char) (s : List Char) : Bool := s.any (fun x => x = c)

/-- Python `s.startswith(t)`. -/
def startsWith : List Char → List Char → Bool
  | _, [] => true
  | [], _ :: _ => false
  | a :: as, b :: bs => a = b && startsWith as bs

/-- Python `s.endswith(t)`. -/
def endsWith (s t : List Char) : Bool := startsWith s.reverse t.reverse

/-- Python `s.split(sep)` for a one-character separator: every occurrence
splits, empty segments are kept. -/
def splitOnChar (c : Char) : List Char → List (List Char)
  | [] => [[]]
  | x :: xs =>
    let r := splitOnChar c xs
    if x = c then [] :: r
    else (x :: r.headD []) :: r.tail

/-- The part of `s` before the first occurrence of `c`
(first component of Python `s.split(c, 1)` when `c` occurs). -/
def beforeChar (c : Char) (s : List Char) : List Char := s.takeWhile (fun x => x ≠ c)

/-- The part of `s` after the first occurrence of `c`
(second component of Python `s.split(c, 1)` when `c` occurs). -/
def afterChar (c : Char) (s : List Char) : List Char := (s.dropWhile (fun x => x ≠ c)).tail

/-- Python `s.rstrip(c)` for a one-character strip set. -/
def rstripChar (c : Char) (s : List Char) : List Char :=
  (s.reverse.dropWhile (fun x => x = c)).reverse

/-- Python `dict` assignment `d[k] = v`: overwrite in place if the key exists,
otherwise append (insertion order is preserved). -/
def dictInsert {α β : Type} [DecidableEq α] (d : List (α × β)) (k : α) (v : β) :
    List (α × β) :=
  if d.any (fun p => p.1 = k) then d.map (fun p => if p.1 = k then (k, v) else p)
  else d ++ [(k, v)]

/-- Python `d.get(k)` on an association-list dict. -/
def dictGet? {α β : Type} [DecidableEq α] (d : List (α × β)) (k : α) : Option β :=
  (d.find? (fun p => p.1 = k)).map Prod.snd

/-- Python `k in d` on an association-list dict. -/
def hasKey {α β : Type} [DecidableEq α] (d : List (α × β)) (k : α) : Bool :=
  d.any (fun p => p.1 = k)

/-- Lexicographic strict order on character lists (Python string `<`,
comparing code points). -/
def strLt : List Char → List Char → Bool
  | [], [] => false
  | [], _ :: _ => true
  | _ :: _, [] => false
  | a :: as, b :: bs => a < b || (a = b && strLt as bs)

/-- Python tuple comparison `(k1, v1) <= (k2, v2)` on pairs of strings, used
by `sorted(self.properties.items())`. -/
def pairLe (a b : List Char × List Char) : Bool :=
  strLt a.1 b.1 || (a.1 = b.1 && (strLt a.2 b.2 || a.2 = b.2))

/-- Insert into a sorted list (auxiliary step of Python's stable sort). -/
def insertLe {α : Type} (le : α → α → Bool) (a : α) : List α → List α
  | [] => [a]
  | b :: l => if le a b then a :: b :: l else b :: insertLe le a l

/-- Python `sorted` with comparison `le` (insertion sort: a stable sort, so it
agrees with Python's sort for any total preorder). -/
def sortLe {α : Type} (le : α → α → Bool) : List α → List α
  | [] => []
  | a :: l => insertLe le a (sortLe le l)

/-- Python `sep.join(parts)`. -/
def pyJoin (sep : List Char) : List (List Char) → List Char
  | [] => []
  | [p] => p
  | p :: q :: rest => p ++ sep ++ pyJoin sep (q :: rest)

/-! ## Block descriptors (`types.py`) -/

/-- `PaletteEntry` of `types.py`: a namespaced identifier plus a property
mapping (modelled as an insertion-ordered association list, as produced by the
parser's `dict`). -/
structure PaletteEntry where
  namespaced_name : List Char
  properties : List (List Char × List Char)
deriving DecidableEq

/-- `PaletteEntry.cache_key` (types.py lines 33–40): the identifier alone, or
`identifier[k1=v1,...]` with the properties sorted by Python tuple order. -/
def PaletteEntry.cache_key (e : PaletteEntry) : List Char :=
  if e.properties = [] then e.namespaced_name
  else
    let props := pyJoin (chars ",")
      ((sortLe pairLe e.properties).map (fun p => p.1 ++ chars "=" ++ p.2))
    e.namespaced_name ++ chars "[" ++ props ++ chars "]"

/-- `PaletteEntry.is_air` (types.py lines 42–45). -/
def PaletteEntry.is_air (e : PaletteEntry) : Bool :=
  endsWith e.namespaced_name (chars ":air") ||
    e.namespaced_name = chars "air" || e.namespaced_name = chars "minecraft:air"

/-- The `transparent_prefixes` tuple of `PaletteEntry.is_transparent`. -/
def transparentPrefixes : List (List Char) :=
  [chars "minecraft:glass", chars "minecraft:ice", chars "minecraft:water",
   chars "minecraft:kelp", chars "minecraft:torch"]

/-- `PaletteEntry.is_transparent` (types.py lines 47–66). -/
def PaletteEntry.is_transparent (e : PaletteEntry) : Bool :=
  e.is_air ||
    transparentPrefixes.any (fun p => startsWith e.namespaced_name p) ||
    [chars "minecraft:barrier", chars "minecraft:light", chars "minecraft:cave_air",
     chars "minecraft:void_air"].any (fun n => e.namespaced_name = n)

/-! ## Structure decoding (`loader.py`) -/

/-- `_parse_palette_entry` (loader.py lines 27–41). -/
def parse_palette_entry (block_state : List Char) : PaletteEntry :=
  if ¬ hasChar '[' block_state then ⟨block_state, []⟩
  else
    let name := beforeChar '[' block_state
    let props := rstripChar ']' (afterChar '[' block_state)
    let prop_dict := (splitOnChar ',' props).foldl
      (fun d part =>
        if part = [] then d
        else if ¬ hasChar '=' part then dictInsert d part (chars "true")
        else dictInsert d (beforeChar '=' part) (afterChar '=' part))
      []
    ⟨name, prop_dict⟩

/-- Python `int.bit_length` on a natural number, with explicit fuel so that
the kernel can evaluate it (`fuel ≥ n` suffices, since the argument at least
halves at every step). -/
def bitLengthAux : Nat → Nat → Nat
  | 0, _ => 0
  | fuel + 1, n => if n = 0 then 0 else bitLengthAux fuel (n / 2) + 1

/-- Python `n.bit_length()` for `n ≥ 0`. -/
def bitLength (n : Nat) : Nat := bitLengthAux n n

/-- `bits_per_block = max(4, (palette_size - 1).bit_length())`
(loader.py line 52).  For `palette_size = 0` Python computes
`(-1).bit_length() = 1` and `Nat` subtraction gives `bit_length 0 = 0`; both
sides of the `max` then yield `4`, so the `Nat` model agrees. -/
def bits_per_block (palette_size : Nat) : Nat := max 4 (bitLength (palette_size - 1))

/-- The inner `while` loop of `_decode_block_data` (loader.py lines 63–67):
as long as at least `bpb` bits are buffered and fewer than `total` values have
been produced, extract the low `bpb` bits as one value.  `fuel` bounds the
iteration count; each iteration removes `bpb ≥ 4` bits from `cnt`, so
`fuel = cnt` always suffices (see `drainBits_guard_false`). -/
def drainBits (bpb mask total : Nat) : Nat → Nat → Nat → List Int → Nat × Nat × List Int
  | 0, buf, cnt, acc => (buf, cnt, acc)
  | fuel + 1, buf, cnt, acc =>
    if bpb ≤ cnt && acc.length < total then
      drainBits bpb mask total fuel (buf >>> bpb) (cnt - bpb)
        (acc ++ [((buf &&& mask : Nat) : Int)])
    else (buf, cnt, acc)

/-- The body of the `for byte in data` loop of `_decode_block_data`
(loader.py lines 60–67): shift the next byte into the accumulator
(`byte & 0xFF` on a signed Python int is `(byte % 256).toNat`), add 8 to the
bit count and run the inner `while` loop.  State is `(bit_buffer, bit_count,
values produced so far)`. -/
def decodeStep (bpb mask total : Nat) (st : Nat × Nat × List Int) (byte : Int) :
    Nat × Nat × List Int :=
  let buf := st.1 ||| (((byte % 256).toNat) <<< st.2.1)
  let cnt := st.2.1 + 8
  drainBits bpb mask total cnt buf cnt st.2.2

/-- `_decode_block_data` (loader.py lines 44–72).  The produced values are
followed by zero padding up to `total_blocks`, exactly as in the preallocated
`np.zeros` array of the source. -/
def decode_block_data (data : List Int) (palette_size total_blocks : Nat) : List Int :=
  let bpb := bits_per_block palette_size
  let mask := (1 <<< bpb) - 1
  let st := data.foldl (decodeStep bpb mask total_blocks) (0, 0, [])
  st.2.2 ++ List.replicate (total_blocks - st.2.2.length) (0 : Int)

/-- The voxel-placement loop of `load_structure` (loader.py lines 123–128):
starting from an all-zero grid, write the `i`-th decoded value at
`x = i % width`, `z = (i / width) % length`, `y = i / (width * length)`.
The grid is modelled as a function from `(x, y, z)` triples. -/
def placeVoxels (width length : Nat) (vals : List Int) : Nat × Nat × Nat → Int :=
  (List.range vals.length).foldl
    (fun grid i p =>
      if p = (i % width, i / (width * length), (i / width) % length) then
        vals.getD i 0
      else grid p)
    (fun _ => (0 : Int))

/-! ## Lemmas: bit length and the decode loop -/

lemma bitLengthAux_le_iff (fuel : Nat) :
    ∀ n k : Nat, n ≤ fuel → (bitLengthAux fuel n ≤ k ↔ n < 2 ^ k) := by
  induction fuel with
  | zero =>
    intro n k h
    have hn : n = 0 := Nat.le_zero.mp h
    subst hn
    show (0 : Nat) ≤ k ↔ 0 < 2 ^ k
    exact ⟨fun _ => pow_pos (by norm_num : (0:ℕ) < 2) k, fun _ => Nat.zero_le k⟩
  | succ fuel ih =>
    intro n k h
    by_cases hn : n = 0
    · subst hn
      show (0 : Nat) ≤ k ↔ 0 < 2 ^ k
      exact ⟨fun _ => pow_pos (by norm_num : (0:ℕ) < 2) k, fun _ => Nat.zero_le k⟩
    · rw [show bitLengthAux (fuel + 1) n = bitLengthAux fuel (n / 2) + 1 from by
        simp [bitLengthAux, hn]]
      cases k with
      | zero =>
        simp only [pow_zero]
        omega
      | succ k =>
        rw [Nat.add_le_add_iff_right, ih (n / 2) k (by omega), pow_succ]
        exact Nat.div_lt_iff_lt_mul (show 0 < 2 by norm_num)

lemma bitLength_le_iff (n k : Nat) : bitLength n ≤ k ↔ n < 2 ^ k :=
  bitLengthAux_le_iff n n k le_rfl

/-- The inner `while` loop never produces more than `total` values. -/
lemma drainBits_length_le (bpb mask total : Nat) :
    ∀ (fuel buf cnt : Nat) (acc : List Int), acc.length ≤ total →
      (drainBits bpb mask total fuel buf cnt acc).2.2.length ≤ total := by
  intro fuel
  induction fuel with
  | zero => intro buf cnt acc h; exact h
  | succ fuel ih =>
    intro buf cnt acc h
    rw [drainBits]
    split
    · next hg =>
      apply ih
      simp only [Bool.and_eq_true, decide_eq_true_eq] at hg
      simp only [List.length_append, List.length_cons, List.length_nil]
      omega
    · exact h

lemma foldl_decodeStep_length_le (bpb mask total : Nat) (data : List Int) :
    ∀ st : Nat × Nat × List Int, st.2.2.length ≤ total →
      (data.foldl (decodeStep bpb mask total) st).2.2.length ≤ total := by
  induction data with
  | nil => intro st h; exact h
  | cons b bs ih =>
    intro st h
    rw [List.foldl_cons]
    exact ih _ (drainBits_length_le _ _ _ _ _ _ _ h)

/-- The decoded value list always has exactly `total_blocks` entries. -/
lemma decode_block_data_length (data : List Int) (p t : Nat) :
    (decode_block_data data p t).length = t := by
  simp only [decode_block_data, List.length_append, List.length_replicate]
  have h := foldl_decodeStep_length_le (bits_per_block p) ((1 <<< bits_per_block p) - 1)
    t data (0, 0, []) (by simp)
  omega

/-- With `fuel = cnt` the inner `while` loop always runs to completion: its
guard is false on the final state (so the explicit fuel is only a
termination device, not a behavioural change). -/
lemma drainBits_guard_false (bpb mask total : Nat) (hb : 0 < bpb) :
    ∀ (fuel buf cnt : Nat) (acc : List Int), cnt ≤ fuel →
      ¬(bpb ≤ (drainBits bpb mask total fuel buf cnt acc).2.1 ∧
        (drainBits bpb mask total fuel buf cnt acc).2.2.length < total) := by
  intro fuel
  induction fuel with
  | zero =>
    intro buf cnt acc h
    simp only [drainBits]
    omega
  | succ fuel ih =>
    intro buf cnt acc h
    rw [drainBits]
    split
    · next hg =>
      simp only [Bool.and_eq_true, decide_eq_true_eq] at hg
      exact ih _ _ _ (by omega)
    · next hg =>
      simp only [Bool.and_eq_true, decide_eq_true_eq] at hg
      exact hg

/-! ## Lemmas: the voxel-placement fold -/

lemma foldl_write_skip {κ : Type} [DecidableEq κ] (k : Nat → κ) (v : Nat → Int) :
    ∀ (is : List Nat) (g0 : κ → Int) (p : κ), (∀ j ∈ is, k j ≠ p) →
      (is.foldl (fun g j q => if q = k j then v j else g q) g0) p = g0 p := by
  intro is
  induction is with
  | nil => intro g0 p _; rfl
  | cons a as ih =>
    intro g0 p h
    rw [List.foldl_cons, ih _ p (fun j hj => h j (List.mem_cons_of_mem a hj))]
    show (if p = k a then v a else g0 p) = g0 p
    rw [if_neg]
    intro he
    exact h a (List.mem_cons_self a as) he.symm

lemma foldl_write_eq {κ : Type} [DecidableEq κ] (k : Nat → κ) (v : Nat → Int) :
    ∀ (is : List Nat) (g0 : κ → Int) (i : Nat), i ∈ is →
      (∀ j ∈ is, k j = k i → j = i) →
      (is.foldl (fun g j q => if q = k j then v j else g q) g0) (k i) = v i := by
  intro is
  induction is with
  | nil => intro g0 i hi _; cases hi
  | cons a as ih =>
    intro g0 i hi hinj
    rw [List.foldl_cons]
    by_cases hmem : i ∈ as
    · exact ih _ i hmem (fun j hj => hinj j (List.mem_cons_of_mem a hj))
    · have hia : i = a := by
        rcases List.mem_cons.mp hi with h | h
        · exact h
        · exact absurd h hmem
      subst hia
      rw [foldl_write_skip k v as _ (k i)
        (fun j hj he => hmem ((hinj j (List.mem_cons_of_mem i hj) he) ▸ hj))]
      show (if k i = k i then v i else g0 (k i)) = v i
      rw [if_pos rfl]

/-- The flat index is reconstructible from `(i % w, i / (w*l), (i/w) % l)`,
so the placement map is injective. -/
lemma coord_reconstruct (w l n : Nat) :
    n = w * l * (n / (w * l)) + w * ((n / w) % l) + n % w := by
  conv_lhs => rw [← Nat.div_add_mod n w, ← Nat.div_add_mod (n / w) l]
  rw [Nat.div_div_eq_div_mul]
  ring

lemma placeVoxels_getD (w l : Nat) (vals : List Int) (i : Nat) (hi : i < vals.length) :
    placeVoxels w l vals (i % w, i / (w * l), (i / w) % l) = vals.getD i 0 := by
  unfold placeVoxels
  apply foldl_write_eq (fun j => (j % w, j / (w * l), (j / w) % l))
    (fun j => vals.getD j 0)
  · exact List.mem_range.mpr hi
  · intro j hj he
    simp only [Prod.mk.injEq] at he
    calc j = w * l * (j / (w * l)) + w * ((j / w) % l) + j % w := coord_reconstruct w l j
    _ = w * l * (i / (w * l)) + w * ((i / w) % l) + i % w := by
        rw [he.1, he.2.1, he.2.2]
    _ = i := (coord_reconstruct w l i).symm

/-- **C1.** For every decoded structure with dimensions `w`, `h`, `l` and
every flat index `i < w*h*l`, the placement loop of `load_structure` puts the
`i`-th decoded palette-id value at voxel coordinate `x = i % w`,
`z = (i / w) % l`, `y = i / (w*l)` (the grid is indexed `(x, y, z)`): the
outer dimension is Y and the fastest-varying is X, then Z. -/
theorem C1_voxel_placement (data : List Int) (palette_size w h l i : Nat)
    (hi : i < w * h * l) :
    placeVoxels w l (decode_block_data data palette_size (w * h * l))
        (i % w, i / (w * l), (i / w) % l)
      = (decode_block_data data palette_size (w * h * l)).getD i 0 := by
  apply placeVoxels_getD
  rw [decode_block_data_length]
  exact hi

/-- **C1, witness.** The placement equation at a concrete decoded structure:
a `2×2×2` grid with palette size 2 and one data byte. -/
theorem C1_voxel_placement_witness :
    3 < 2 * 2 * 2 ∧
      placeVoxels 2 2 (decode_block_data [(0x7A : Int)] 2 (2 * 2 * 2))
          (3 % 2, 3 / (2 * 2), (3 / 2) % 2)
        = (decode_block_data [(0x7A : Int)] 2 (2 * 2 * 2)).getD 3 0 :=
  ⟨by decide, C1_voxel_placement [(0x7A : Int)] 2 2 2 2 3 (by decide)⟩

/-- **C2, counterexample.** The claim's bucket table is wrong: for palette
size 17 the code computes `max(4, bitlength(16)) = 5` bits, not 8. -/
theorem C2_bits_per_block_17 : bits_per_block 17 = 5 ∧ bits_per_block 17 ≠ 8 := by
  decide

/-- **C2, amended.** `bitsPerBlock = max(4, bitlength(paletteSize-1))` equals
4 bits for palette sizes 1–16; for sizes 17–256 it equals
`bitlength(paletteSize-1)`, which lies between 5 and 8 bits; for sizes
257–65536 it equals `bitlength(paletteSize-1)`, which lies between 9 and 16
bits. -/
theorem C2_bits_per_block_ranges (p : Nat) :
    (1 ≤ p → p ≤ 16 → bits_per_block p = 4) ∧
    (17 ≤ p → p ≤ 256 →
      bits_per_block p = bitLength (p - 1) ∧
      5 ≤ bits_per_block p ∧ bits_per_block p ≤ 8) ∧
    (257 ≤ p → p ≤ 65536 →
      bits_per_block p = bitLength (p - 1) ∧
      9 ≤ bits_per_block p ∧ bits_per_block p ≤ 16) := by
  refine ⟨fun h1 h16 => ?_, fun h17 h256 => ?_, fun h257 h65536 => ?_⟩
  · have hb : bitLength (p - 1) ≤ 4 := by
      rw [bitLength_le_iff]
      norm_num
      omega
    unfold bits_per_block
    omega
  · have hlow : ¬ bitLength (p - 1) ≤ 4 := by
      rw [bitLength_le_iff]
      norm_num
      omega
    have hhigh : bitLength (p - 1) ≤ 8 := by
      rw [bitLength_le_iff]
      norm_num
      omega
    unfold bits_per_block
    omega
  · have hlow : ¬ bitLength (p - 1) ≤ 8 := by
      rw [bitLength_le_iff]
      norm_num
      omega
    have hhigh : bitLength (p - 1) ≤ 16 := by
      rw [bitLength_le_iff]
      norm_num
      omega
    unfold bits_per_block
    omega

/-- **C2, witness.** The amended range facts at concrete palette sizes 16, 17
and 257. -/
theorem C2_bits_per_block_ranges_witness :
    bits_per_block 16 = 4 ∧ bits_per_block 17 = bitLength 16 ∧
      bits_per_block 257 = bitLength 256 ∧ 9 ≤ bits_per_block 257 :=
  ⟨(C2_bits_per_block_ranges 16).1 (by decide) (by decide),
   ((C2_bits_per_block_ranges 17).2.1 (by decide) (by decide)).1,
   ((C2_bits_per_block_ranges 257).2.2 (by decide) (by decide)).1,
   ((C2_bits_per_block_ranges 257).2.2 (by decide) (by decide)).2.1⟩

/-! ## Texture resolution (`model_baker.py`)

`_bake_with_reader` always returns `None` in the source (the
minecraft-model-reader integration is an explicit placeholder), so only the
fallback path is live and is what we embed.  Resource-pack file access is
external I/O; it is modelled by a lookup function
`src : List Char → Option Img` standing for
`ResourcePackTextures.load_texture` (deterministic within one run), together
with the `has_sources` flag. -/

/-- An image.  Pixel content never influences the verified claims, so images
are carried abstractly: the hashed-color tile of `_hashed_color_cube`
(`np.full((16,16,4), color)`, whose sha1-derived color we do not model) is
represented by the cache key that seeds its color, and resource-pack images
by their raw bytes. -/
inductive Img where
  | hashedTile (key : List Char)
  | ext (data : List Nat)
deriving DecidableEq

/-- `BakedFace` of `types.py`: 4 vertex positions, 4 UVs, one normal, one
texture key.  Float arithmetic is modelled over `ℚ` (all values involved are
small dyadics, exactly representable as float32). -/
structure BakedFace where
  positions : List (ℚ × ℚ × ℚ)
  uvs : List (ℚ × ℚ)
  normal : ℚ × ℚ × ℚ
  texture_key : List Char
deriving DecidableEq

/-- `BakedFace.offset` (types.py lines 83–89). -/
def BakedFace.offset (f : BakedFace) (dx dy dz : ℚ) : BakedFace :=
  { f with positions := f.positions.map (fun p => (p.1 + dx, p.2.1 + dy, p.2.2 + dz)) }

/-- `BakedBlock` of `model_baker.py`. -/
structure BakedBlock where
  faces : List (List Char × BakedFace)
  texture_key : List Char
deriving DecidableEq

/-- `_FACE_ORDER`. -/
def FACE_ORDER : List (List Char) :=
  [chars "north", chars "south", chars "east", chars "west", chars "up", chars "down"]

/-- `_HORIZONTAL_FACES`. -/
def HORIZONTAL_FACES : List (List Char) :=
  [chars "north", chars "south", chars "east", chars "west"]

/-- `_SPECIAL_FACE_RULES`: base name ↦ (top, side, bottom) candidate lists. -/
def SPECIAL_FACE_RULES :
    List (List Char × (List (List Char) × List (List Char) × List (List Char))) :=
  [ (chars "grass_block", ([chars "grass_block_top"], [chars "grass_block_side"], [chars "dirt"])),
    (chars "podzol", ([chars "podzol_top"], [chars "podzol_side"], [chars "dirt"])),
    (chars "mycelium", ([chars "mycelium_top"], [chars "mycelium_side"], [chars "dirt"])),
    (chars "dirt_path", ([chars "dirt_path_top"], [chars "dirt_path_side"], [chars "dirt"])),
    (chars "grass_path", ([chars "dirt_path_top", chars "grass_path_top"],
      [chars "dirt_path_side", chars "grass_path_side"], [chars "dirt"])),
    (chars "crimson_nylium", ([chars "crimson_nylium"], [chars "crimson_nylium_side"],
      [chars "netherrack"])),
    (chars "warped_nylium", ([chars "warped_nylium"], [chars "warped_nylium_side"],
      [chars "netherrack"])),
    (chars "snow_block", ([chars "snow"], [chars "snow"], [chars "snow"])) ]

/-- Python `s.replace(pat, rep)` for a non-empty pattern, with fuel
(`fuel = s.length` suffices: every step consumes at least one character). -/
def replaceChars (pat rep : List Char) : Nat → List Char → List Char
  | _, [] => []
  | 0, s => s
  | fuel + 1, c :: rest =>
    if startsWith (c :: rest) pat then
      match pat with
      | [] => c :: rest
      | _ :: _ => rep ++ replaceChars pat rep fuel ((c :: rest).drop pat.length)
    else c :: replaceChars pat rep fuel rest

/-- Python `s.replace(pat, rep)`. -/
def pyReplace (s pat rep : List Char) : List Char := replaceChars pat rep s.length s

/-- ASCII whitespace (the characters Python's `str.strip` removes on the
identifiers appearing here). -/
def isSpace (c : Char) : Bool := c = ' ' || c = '\t' || c = '\n' || c = '\r'

/-- Python `s.strip()`. -/
def pyStrip (s : List Char) : List Char :=
  ((s.dropWhile isSpace).reverse.dropWhile isSpace).reverse

/-- `ModelBaker._normalize_texture_key` (model_baker.py lines 388–406). -/
def normalize_texture_key (name0 : List Char) : List Char :=
  let name1 := pyStrip name0
  if name1 = [] then chars "minecraft:block/missingno"
  else
    let name2 := if startsWith name1 (chars "#") then name1.tail else name1
    let ns := if hasChar ':' name2 then beforeChar ':' name2 else chars "minecraft"
    let path0 := if hasChar ':' name2 then afterChar ':' name2 else name2
    let path1 := ((pyStrip path0).dropWhile (fun c => c = '/')).map
      (fun c => if c = '\\' then '/' else c)
    let path2 := if endsWith path1 (chars ".png") then path1.take (path1.length - 4) else path1
    let path3 := if startsWith path2 (chars "textures/") then path2.drop 9 else path2
    let path4 :=
      if ¬ (startsWith path3 (chars "block/") || startsWith path3 (chars "item/")) then
        chars "block/" ++ path3
      else path3
    ns ++ chars ":" ++ path4

/-- `ModelBaker._face_candidates` (model_baker.py lines 350–386). -/
def face_candidates (base_name face : List Char) : List (List Char) :=
  let normalized := pyReplace base_name (chars "minecraft:") []
  let fromRules : Option (List (List Char)) :=
    match dictGet? SPECIAL_FACE_RULES normalized with
    | none => none
    | some rules =>
      if face = chars "up" then some rules.1
      else if face = chars "down" then some rules.2.2
      else if HORIZONTAL_FACES.any (fun f => f = face) then some rules.2.1
      else none
  match fromRules with
  | some cs => cs
  | none =>
    if face = chars "up" then
      [normalized ++ chars "_top", normalized ++ chars "_up", normalized ++ chars "_upper",
       normalized ++ chars "_end", normalized ++ chars "_face", normalized]
    else if face = chars "down" then
      [normalized ++ chars "_bottom", normalized ++ chars "_down", normalized ++ chars "_lower",
       normalized ++ chars "_end", normalized ++ chars "_face", normalized]
    else
      [normalized ++ chars "_side", normalized ++ chars "_side0", normalized ++ chars "_side1",
       normalized ++ chars "_front", normalized]

/-- The mutable state of one `ModelBaker`: the baked-block cache and the
texture-image cache. -/
structure BakerState where
  cache : List (List Char × BakedBlock)
  texture_cache : List (List Char × Img)
deriving DecidableEq

/-- A freshly constructed `ModelBaker`: both caches empty. -/
def initialBaker : BakerState := ⟨[], []⟩

/-- `ModelBaker._ensure_texture_cached` (model_baker.py lines 408–415). -/
def ensure_texture_cached (src : List Char → Option Img) (st : BakerState)
    (texture_key : List Char) : Bool × BakerState :=
  if hasKey st.texture_cache texture_key then (true, st)
  else
    match src texture_key with
    | none => (false, st)
    | some img =>
      (true, { st with texture_cache := st.texture_cache ++ [(texture_key, img)] })

/-- The `for candidate in candidates: ... break` loop inside
`_cube_face_textures`: try each candidate in order, returning the first
normalized key whose texture could be cached. -/
def tryCandidates (src : List Char → Option Img) (st : BakerState) :
    List (List Char) → Option (List Char) × BakerState
  | [] => (none, st)
  | c :: rest =>
    let key := normalize_texture_key c
    let r := ensure_texture_cached src st key
    if r.1 then (some key, r.2) else tryCandidates src r.2 rest

/-- One iteration of the `for face in _FACE_ORDER` loop of
`_cube_face_textures`: resolve the face's candidates and record the first
hit. -/
def ctfStep (src : List Char → Option Img) (base_name : List Char)
    (acc : List (List Char × List Char) × BakerState) (face : List Char) :
    List (List Char × List Char) × BakerState :=
  let r := tryCandidates src acc.2 (face_candidates base_name face)
  match r.1 with
  | none => (acc.1, r.2)
  | some key => (acc.1 ++ [(face, key)], r.2)

/-- The `faces.setdefault(face, fallback)` loop of `_cube_face_textures`. -/
def setdefaultStep (fallback : List Char) (fs : List (List Char × List Char))
    (face : List Char) : List (List Char × List Char) :=
  if hasKey fs face then fs else fs ++ [(face, fallback)]

/-- `ModelBaker._cube_face_textures` (model_baker.py lines 307–348). -/
def cube_face_textures (src : List Char → Option Img) (has_sources : Bool)
    (st : BakerState) (entry : PaletteEntry) :
    Option (List (List Char × List Char)) × BakerState :=
  if ¬ has_sources then (none, st)
  else
    let base_name := (splitOnChar ':' entry.namespaced_name).getLastD entry.namespaced_name
    let step := FACE_ORDER.foldl (ctfStep src base_name) ([], st)
    let faces := step.1
    let st1 := step.2
    if faces = [] then (none, st1)
    else
      let fallback := ((FACE_ORDER.find? (fun f => hasKey faces f)).bind
        (dictGet? faces)).getD []
      let faces2 := FACE_ORDER.foldl (setdefaultStep fallback) faces
      let faces3 :=
        match dictGet? entry.properties (chars "axis") with
        | some ax =>
          if ax = chars "x" ∨ ax = chars "y" ∨ ax = chars "z" then
            let top_key := (dictGet? faces2 (chars "up")).getD []
            let bottom_key := (dictGet? faces2 (chars "down")).getD []
            let side_key := (dictGet? faces2 (chars "north")).getD []
            if ax = chars "x" then
              dictInsert (dictInsert (dictInsert (dictInsert faces2
                (chars "east") top_key) (chars "west") top_key)
                (chars "up") side_key) (chars "down") side_key
            else if ax = chars "z" then
              dictInsert (dictInsert (dictInsert (dictInsert faces2
                (chars "north") top_key) (chars "south") top_key)
                (chars "up") side_key) (chars "down") side_key
            else
              dictInsert (dictInsert faces2 (chars "up") top_key) (chars "down") bottom_key
          else faces2
        | none => faces2
      (some faces3, st1)

/-- The per-face UV table `[(0,0),(1,0),(1,1),(0,1)]`. -/
def UNIT_UVS : List (ℚ × ℚ) := [(0, 0), (1, 0), (1, 1), (0, 1)]

/-- The `face_definitions` table of `_unit_cube_faces`
(model_baker.py lines 283–290). -/
def FACE_DEFINITIONS : List (List Char × (List (ℚ × ℚ × ℚ) × (ℚ × ℚ × ℚ))) :=
  [ (chars "north", ([(0,0,0), (1,0,0), (1,1,0), (0,1,0)], (0, 0, -1))),
    (chars "south", ([(1,0,1), (0,0,1), (0,1,1), (1,1,1)], (0, 0, 1))),
    (chars "west",  ([(0,0,1), (0,0,0), (0,1,0), (0,1,1)], (-1, 0, 0))),
    (chars "east",  ([(1,0,0), (1,0,1), (1,1,1), (1,1,0)], (1, 0, 0))),
    (chars "down",  ([(0,0,1), (1,0,1), (1,0,0), (0,0,0)], (0, -1, 0))),
    (chars "up",    ([(0,1,0), (1,1,0), (1,1,1), (0,1,1)], (0, 1, 0))) ]

/-- `ModelBaker._unit_cube_faces` (model_baker.py lines 277–302). -/
def unit_cube_faces (texture_key : List Char)
    (face_overrides : Option (List (List Char × List Char))) :
    List (List Char × BakedFace) :=
  FACE_DEFINITIONS.map (fun fd =>
    let key := match face_overrides with
      | none => texture_key
      | some ov => (dictGet? ov fd.1).getD ((dictGet? ov (chars "side")).getD texture_key)
    (fd.1, ⟨fd.2.1, UNIT_UVS, fd.2.2, key⟩))

/-- `ModelBaker._hashed_color_cube` (model_baker.py lines 257–265). -/
def hashed_color_cube (st : BakerState) (entry : PaletteEntry) :
    BakedBlock × BakerState :=
  let texture_key := entry.cache_key
  let st1 :=
    if hasKey st.texture_cache texture_key then st
    else { st with texture_cache := st.texture_cache ++ [(texture_key, Img.hashedTile texture_key)] }
  (⟨unit_cube_faces texture_key none, texture_key⟩, st1)

/-- `ModelBaker._bake_fallback` (model_baker.py lines 241–255). -/
def bake_fallback (src : List Char → Option Img) (has_sources : Bool)
    (st : BakerState) (entry : PaletteEntry) : BakedBlock × BakerState :=
  let r := cube_face_textures src has_sources st entry
  let st1 := r.2
  match r.1 with
  | some textured_faces =>
    if textured_faces ≠ [] then
      let primary_key :=
        ((((((dictGet? textured_faces (chars "north")).orElse
          (fun _ => dictGet? textured_faces (chars "east"))).orElse
          (fun _ => dictGet? textured_faces (chars "west"))).orElse
          (fun _ => dictGet? textured_faces (chars "south"))).orElse
          (fun _ => dictGet? textured_faces (chars "up"))).orElse
          (fun _ => dictGet? textured_faces (chars "down")))
      match primary_key with
      | some pk => (⟨unit_cube_faces pk (some textured_faces), pk⟩, st1)
      | none => hashed_color_cube st1 entry
    else hashed_color_cube st1 entry
  | none => hashed_color_cube st1 entry

/-- `ModelBaker.bake_blockstate` (model_baker.py lines 220–229);
`_bake_with_reader` is always `None` in the source. -/
def bake_blockstate (src : List Char → Option Img) (has_sources : Bool)
    (st : BakerState) (entry : PaletteEntry) : BakedBlock × BakerState :=
  let ck := entry.cache_key
  match dictGet? st.cache ck with
  | some b => (b, st)
  | none =>
    let r := bake_fallback src has_sources st entry
    (r.1, { r.2 with cache := r.2.cache ++ [(ck, r.1)] })

/-! ## Face culling and mesh assembly (`mesher.py`) -/

/-- The `_DIRECTIONS` dict of `mesher.py` in insertion order. -/
def DIRECTIONS : List (List Char × (Int × Int × Int)) :=
  [ (chars "north", (0, 0, -1)), (chars "south", (0, 0, 1)), (chars "west", (-1, 0, 0)),
    (chars "east", (1, 0, 0)), (chars "down", (0, -1, 0)), (chars "up", (0, 1, 0)) ]

/-- `StructureData` of `types.py`: grid dimensions, palette and the dense
voxel array (modelled as a total function on coordinates; the constructed
grids only carry values at in-range coordinates). -/
structure StructureData where
  sizeX : Nat
  sizeY : Nat
  sizeZ : Nat
  palette : List PaletteEntry
  voxels : Nat → Nat → Nat → Int

/-- The local `palette_entry` helper of `culled_faces`
(mesher.py lines 25–28): out-of-range indices become air. -/
def lookup_palette (palette : List PaletteEntry) (index : Int) : PaletteEntry :=
  if index < 0 ∨ (palette.length : Int) ≤ index then ⟨chars "minecraft:air", []⟩
  else palette.getD index.toNat ⟨chars "minecraft:air", []⟩

/-- The body of the triple voxel loop of `culled_faces`
(mesher.py lines 30–52) at one coordinate: skip air, bake the block once,
then emit one face per direction whose neighbor is transparent (out-of-grid
neighbors count as air), translated by the voxel coordinates. -/
def voxelFaces (src : List Char → Option Img) (has_sources : Bool)
    (struct : StructureData) (st : BakerState) (x y z : Nat) :
    List BakedFace × BakerState :=
  let palette_index := struct.voxels x y z
  let entry := lookup_palette struct.palette palette_index
  if entry.is_air then ([], st)
  else
    let r := bake_blockstate src has_sources st entry
    let baked_block := r.1
    (DIRECTIONS.filterMap (fun d =>
      let nx : Int := (x : Int) + d.2.1
      let ny : Int := (y : Int) + d.2.2.1
      let nz : Int := (z : Int) + d.2.2.2
      let emit : Bool :=
        if 0 ≤ nx ∧ nx < (struct.sizeX : Int) ∧ 0 ≤ ny ∧ ny < (struct.sizeY : Int) ∧
            0 ≤ nz ∧ nz < (struct.sizeZ : Int) then
          (lookup_palette struct.palette (struct.voxels nx.toNat ny.toNat nz.toNat)).is_transparent
        else true
      if emit then
        (dictGet? baked_block.faces d.1).map (fun bf => bf.offset (x : ℚ) (y : ℚ) (z : ℚ))
      else none), r.2)

/-- The coordinates visited by the triple `for x / for y / for z` loop, in
loop order. -/
def allCoords (sx sy sz : Nat) : List (Nat × Nat × Nat) :=
  (List.range sx).flatMap (fun x =>
    (List.range sy).flatMap (fun y =>
      (List.range sz).map (fun z => (x, y, z))))

/-- `culled_faces` (mesher.py lines 20–53), threading the baker state. -/
def culled_faces (src : List Char → Option Img) (has_sources : Bool)
    (struct : StructureData) (st0 : BakerState) : List BakedFace × BakerState :=
  (allCoords struct.sizeX struct.sizeY struct.sizeZ).foldl
    (fun acc c =>
      let r := voxelFaces src has_sources struct acc.2 c.1 c.2.1 c.2.2
      (acc.1 ++ r.1, r.2))
    ([], st0)

/-- `MeshBuffers` of `types.py`. -/
structure MeshBuffers where
  positions : List (ℚ × ℚ × ℚ)
  normals : List (ℚ × ℚ × ℚ)
  uvs : List (ℚ × ℚ)
  indices : List Nat
deriving DecidableEq

/-- The all-empty mesh returned for empty input. -/
def emptyMesh : MeshBuffers := ⟨[], [], [], []⟩

/-- `quad_indices = [0, 1, 2, 0, 2, 3]`. -/
def quadIndices : List Nat := [0, 1, 2, 0, 2, 3]

/-- `build_mesh` (mesher.py lines 56–103): for each face, look up its
texture key's UV rectangle (silently skipping the face when absent), remap
the unit UVs into the rectangle and append 4 vertices and 6 offset
indices. -/
def build_mesh (faces : List BakedFace)
    (atlas_uv : List (List Char × (ℚ × ℚ × ℚ × ℚ))) : MeshBuffers :=
  if faces = [] then emptyMesh
  else
    let st := faces.foldl
      (fun (acc : MeshBuffers × Nat) face =>
        match dictGet? atlas_uv face.texture_key with
        | none => acc
        | some rect =>
          (⟨acc.1.positions ++ face.positions,
            acc.1.normals ++ [face.normal, face.normal, face.normal, face.normal],
            acc.1.uvs ++ face.uvs.map (fun p =>
              (rect.1 + (rect.2.2.1 - rect.1) * p.1, rect.2.1 + (rect.2.2.2 - rect.2.1) * p.2)),
            acc.1.indices ++ quadIndices.map (fun q => q + acc.2)⟩,
           acc.2 + 4))
      (emptyMesh, 0)
    if st.1.positions = [] then emptyMesh else st.1

/-! ## Concrete structures for the culling scenarios -/

/-- `minecraft:stone`, no properties. -/
def stoneEntry : PaletteEntry := ⟨chars "minecraft:stone", []⟩

/-- `minecraft:glass`, no properties. -/
def glassEntry : PaletteEntry := ⟨chars "minecraft:glass", []⟩

/-- `minecraft:air`, no properties. -/
def airEntry : PaletteEntry := ⟨chars "minecraft:air", []⟩

/-- The `2×1×1` grid `[stone, glass]`. -/
def structSG : StructureData :=
  ⟨2, 1, 1, [stoneEntry, glassEntry], fun x _ _ => if x = 0 then 0 else 1⟩

/-- The `2×1×1` grid `[stone, stone]`. -/
def structSS : StructureData :=
  ⟨2, 1, 1, [stoneEntry], fun _ _ _ => 0⟩

/-- No resource pack: the texture source never succeeds. -/
def noSrc : List Char → Option Img := fun _ => none

/-- **C3, counterexample.** In the `2×1×1` grid `[stone, glass]` the stone
voxel yields 6 culled faces, not 5: its five grid-boundary faces all have
out-of-bounds (air) neighbors and are emitted, and the +X face touching
glass is also emitted because glass is transparent. -/
theorem C3_stone_glass_six_faces :
    (voxelFaces noSrc false structSG initialBaker 0 0 0).1.length = 6 ∧
      (voxelFaces noSrc false structSG initialBaker 0 0 0).1.length ≠ 5 := by
  decide

/-- **C3, amended.** In the `2×1×1` grid `[stone, glass]`, face culling
emits exactly 6 faces for the stone voxel — its five outward faces plus the
+X face touching the glass, which is emitted (exactly one emitted face has
normal `(1,0,0)`) because glass is transparent; the glass voxel yields 5.
In the `2×1×1` grid `[stone, stone]`, each stone voxel yields exactly 5
faces: only the face between the two opaque voxels is suppressed. -/
theorem C3_face_culling_scenarios :
    (voxelFaces noSrc false structSG initialBaker 0 0 0).1.length = 6 ∧
    (voxelFaces noSrc false structSG initialBaker 0 0 0).1.countP
        (fun f => decide (f.normal = ((1 : ℚ), (0 : ℚ), (0 : ℚ)))) = 1 ∧
    (culled_faces noSrc false structSG initialBaker).1.length = 11 ∧
    (voxelFaces noSrc false structSS initialBaker 0 0 0).1.length = 5 ∧
    (voxelFaces noSrc false structSS
        (voxelFaces noSrc false structSS initialBaker 0 0 0).2 1 0 0).1.length = 5 ∧
    (culled_faces noSrc false structSS initialBaker).1.length = 10 := by
  decide

/-! ## Atlas packing (`atlas.py`)

The pixel operations (resize, edge padding, paste) are PIL calls whose output
image never feeds back into any verified claim; the model carries the atlas
dimensions and the UV-rectangle table, both computed exactly as in the
source. -/

/-- `math.ceil(math.sqrt(count))`.  Python computes this through float64
`sqrt`, which is exact for the perfect squares and monotone in the ranges
relevant here; the model uses the exact integer ceiling. -/
def ceilSqrt (n : Nat) : Nat :=
  if Nat.sqrt n * Nat.sqrt n = n then Nat.sqrt n else Nat.sqrt n + 1

/-- `AtlasResult` of `types.py`: the packed image is represented by its
dimensions, plus the texture-key → UV-rectangle table. -/
structure AtlasResult where
  atlasWidth : Nat
  atlasHeight : Nat
  uv_rects : List (List Char × (ℚ × ℚ × ℚ × ℚ))
deriving DecidableEq

/-- The loop body of `build_atlas` computing the UV rectangle of the tile at
index `idx` (atlas.py lines 47–59): the cell's inner (unpadded) region inset
by half a texel on every side. -/
def atlasRect (columns stride tile_size padding width height idx : Nat) :
    ℚ × ℚ × ℚ × ℚ :=
  let x := (idx % columns) * stride
  let y := (idx / columns) * stride
  let inner_left := x + padding
  let inner_top := y + padding
  let inner_right := inner_left + tile_size
  let inner_bottom := inner_top + tile_size
  (((inner_left : ℚ) + 1/2) / (width : ℚ),
   ((inner_top : ℚ) + 1/2) / (height : ℚ),
   ((inner_right : ℚ) - 1/2) / (width : ℚ),
   ((inner_bottom : ℚ) - 1/2) / (height : ℚ))

/-- `build_atlas` (atlas.py lines 12–61).  `images` is the insertion-ordered
key/image mapping (`keys = list(images.keys())`); `math.ceil(count/columns)`
is the exact integer ceiling (Python's float64 division is exact at these
magnitudes). -/
def build_atlas (images : List (List Char × Img)) (tile_size padding : Nat) : AtlasResult :=
  if images = [] then ⟨tile_size, tile_size, [(chars "default", (0, 0, 1, 1))]⟩
  else
    let keys := images.map Prod.fst
    let count := keys.length
    let columns := ceilSqrt count
    let rows := (count + columns - 1) / columns
    let stride := tile_size + padding * 2
    let width := columns * stride
    let height := rows * stride
    let uv_rects := keys.enum.map (fun ik =>
      (ik.2, atlasRect columns stride tile_size padding width height ik.1))
    ⟨width, height, uv_rects⟩

/-! ## GLB serialization (`gltf_builder.py`)

Byte strings are `List Nat`.  The JSON chunk is produced by a model of
Python's `json.dumps` with its default separators; the only divergence is the
spelling of float numerals (`dumpQ`), on which no verified property depends.
IEEE-754 float32 bit patterns are not modelled: each float32 value
contributes an opaque 4-byte group (`f32bytes`), which is all the container
properties observe.  The PNG re-encoding of the atlas image is external PIL
code; its output enters `mesh_to_glb` as the byte-string argument
`atlas_png`. -/

/-- JSON documents (the subset `json.dumps` receives here). -/
inductive Json where
  | jnum (q : ℚ)
  | jnat (n : Nat)
  | jstr (s : List Char)
  | jarr (xs : List Json)
  | jobj (fields : List (List Char × Json))

/-- Spelling of a float numeral in the JSON output.  Python's float `repr`
is not replicated; every verified container property is independent of this
spelling. -/
def dumpQ (q : ℚ) : List Char :=
  if q.den = 1 then chars (toString q.num)
  else chars (toString q.num) ++ '/' :: chars (toString q.den)

/-- `json.dumps` with the default separators `", "` and `": "` (no string in
the documents built here needs escaping).  `fuel` bounds the nesting depth;
the documents built by `mesh_to_glb` have depth below 16. -/
def dumpJson : Nat → Json → List Char
  | _, .jnum q => dumpQ q
  | _, .jnat n => chars (toString n)
  | _, .jstr s => '"' :: s ++ ['"']
  | 0, .jarr _ => []
  | fuel + 1, .jarr xs =>
    '[' :: List.intercalate (chars ", ") (xs.map (dumpJson fuel)) ++ [']']
  | 0, .jobj _ => []
  | fuel + 1, .jobj fs =>
    '\x7b' :: List.intercalate (chars ", ")
      (fs.map (fun kv => '"' :: kv.1 ++ chars "\": " ++ dumpJson fuel kv.2)) ++ ['\x7d']

/-- UTF-8 bytes of an ASCII string. -/
def strBytes (s : List Char) : List Nat := s.map Char.toNat

/-- Little-endian 32-bit serialization (`struct.pack("<I", n)`;
`struct.error` on overflow is not modelled — the container-integrity theorem
carries the corresponding size bound as a hypothesis). -/
def u32le (n : Nat) : List Nat :=
  [n % 256, n / 256 % 256, n / 65536 % 256, n / 16777216 % 256]

/-- `struct.unpack("<I", ...)` at a byte offset. -/
def readU32 (bytes : List Nat) (off : Nat) : Nat :=
  bytes.getD off 0 + 256 * (bytes.getD (off + 1) 0 +
    256 * (bytes.getD (off + 2) 0 + 256 * bytes.getD (off + 3) 0))

/-- `GLTF_HEADER_MAGIC = 0x46546C67`. -/
def GLTF_HEADER_MAGIC : Nat := 0x46546C67

/-- `GLTF_VERSION = 2`. -/
def GLTF_VERSION : Nat := 2

/-- The JSON chunk tag `0x4E4F534A`. -/
def JSON_CHUNK_TAG : Nat := 0x4E4F534A

/-- The binary chunk tag `0x004E4942`. -/
def BIN_CHUNK_TAG : Nat := 0x004E4942

/-- JSON padding (gltf_builder.py lines 40–41 and 172–174): pad the dumped
JSON with trailing spaces to a multiple of 4 bytes. -/
def padJson (json_bytes0 : List Nat) : List Nat :=
  json_bytes0 ++ List.replicate ((4 - json_bytes0.length % 4) % 4) (' '.toNat)

/-- Final packaging of the empty-mesh branch (gltf_builder.py lines 42–44):
12-byte header (magic, version, total length) followed by the JSON chunk;
no binary chunk is emitted. -/
def packGlbNoBin (json_bytes : List Nat) : List Nat :=
  u32le GLTF_HEADER_MAGIC ++ u32le GLTF_VERSION ++ u32le (12 + 8 + json_bytes.length) ++
    (u32le json_bytes.length ++ u32le JSON_CHUNK_TAG ++ json_bytes)

/-- Final packaging of the non-empty branch (gltf_builder.py lines 176–180):
header, JSON chunk, binary chunk. -/
def packGlbBin (json_bytes bin_chunk : List Nat) : List Nat :=
  u32le GLTF_HEADER_MAGIC ++ u32le GLTF_VERSION ++
    u32le (12 + 8 + json_bytes.length + 8 + bin_chunk.length) ++
    (u32le json_bytes.length ++ u32le JSON_CHUNK_TAG ++ json_bytes) ++
    (u32le bin_chunk.length ++ u32le BIN_CHUNK_TAG ++ bin_chunk)

/-- `_append_with_padding` (gltf_builder.py lines 16–23): append `data` to
the chunk, zero-padded to 4-byte alignment; result is the grown chunk plus
the `(offset, length)` pair the source returns. -/
def append_with_padding (target data : List Nat) : List Nat × Nat × Nat :=
  let offset := target.length
  let length := data.length
  let padding := (4 - length % 4) % 4
  (target ++ data ++ List.replicate padding 0, offset, length)

/-- The four bytes of one float32 value (`np.float32(...).tobytes()`).  The
IEEE-754 bit pattern is deliberately opaque: only the 4-byte size is ever
observed by the verified claims. -/
def f32bytes (q : ℚ) : List Nat := [0, 0, 0, 0]

/-- `tobytes()` of a float32 `(n, 3)` array. -/
def vec3bytes (ps : List (ℚ × ℚ × ℚ)) : List Nat :=
  ps.flatMap (fun p => f32bytes p.1 ++ f32bytes p.2.1 ++ f32bytes p.2.2)

/-- `tobytes()` of a float32 `(n, 2)` array. -/
def vec2bytes (ps : List (ℚ × ℚ)) : List Nat :=
  ps.flatMap (fun p => f32bytes p.1 ++ f32bytes p.2)

/-- `tobytes()` of a uint32 array (little-endian). -/
def u32bytes (ns : List Nat) : List Nat := ns.flatMap u32le

/-- Componentwise minimum. -/
def vmin (a b : ℚ × ℚ × ℚ) : ℚ × ℚ × ℚ :=
  (min a.1 b.1, min a.2.1 b.2.1, min a.2.2 b.2.2)

/-- Componentwise maximum. -/
def vmax (a b : ℚ × ℚ × ℚ) : ℚ × ℚ × ℚ :=
  (max a.1 b.1, max a.2.1 b.2.1, max a.2.2 b.2.2)

/-- `positions.min(axis=0)` (only used on non-empty input). -/
def posMin : List (ℚ × ℚ × ℚ) → ℚ × ℚ × ℚ
  | [] => (0, 0, 0)
  | p :: rest => rest.foldl vmin p

/-- `positions.max(axis=0)` (only used on non-empty input). -/
def posMax : List (ℚ × ℚ × ℚ) → ℚ × ℚ × ℚ
  | [] => (0, 0, 0)
  | p :: rest => rest.foldl vmax p

/-- The constant JSON document of the empty-mesh branch
(gltf_builder.py lines 28–38). -/
def emptyGltfJson : Json :=
  .jobj [
    (chars "asset", .jobj [(chars "version", .jstr (chars "2.0")),
      (chars "generator", .jstr (chars "BuilderGPT Preview"))]),
    (chars "scenes", .jarr [.jobj [(chars "nodes", .jarr [.jnat 0])]]),
    (chars "scene", .jnat 0),
    (chars "nodes", .jarr [.jobj [(chars "mesh", .jnat 0)]]),
    (chars "meshes", .jarr [.jobj [(chars "primitives", .jarr [])]]),
    (chars "buffers", .jarr [.jobj [(chars "byteLength", .jnat 0)]]),
    (chars "bufferViews", .jarr []),
    (chars "accessors", .jarr []),
    (chars "materials", .jarr [])
  ]

/-- `GLBResult` of `types.py`. -/
structure GLBResult where
  glb_bytes : List Nat
  center : ℚ × ℚ × ℚ
  size : ℚ × ℚ × ℚ
deriving DecidableEq

/-- A bufferView JSON object with a GPU target hint. -/
def bufferViewJson (offset length target : Nat) : Json :=
  .jobj [(chars "buffer", .jnat 0), (chars "byteOffset", .jnat offset),
    (chars "byteLength", .jnat length), (chars "target", .jnat target)]

/-- `mesh_to_glb` (gltf_builder.py lines 26–187). -/
def mesh_to_glb (mesh : MeshBuffers) (atlas : AtlasResult) (atlas_png : List Nat) :
    GLBResult :=
  if mesh.positions = [] then
    ⟨packGlbNoBin (padJson (strBytes (dumpJson 16 emptyGltfJson))), (0, 0, 0), (0, 0, 0)⟩
  else
    let a1 := append_with_padding [] (vec3bytes mesh.positions)
    let a2 := append_with_padding a1.1 (vec3bytes mesh.normals)
    let a3 := append_with_padding a2.1 (vec2bytes mesh.uvs)
    let a4 := append_with_padding a3.1 (u32bytes mesh.indices)
    let a5 := append_with_padding a4.1 atlas_png
    let bin_chunk := a5.1
    let pmin := posMin mesh.positions
    let pmax := posMax mesh.positions
    let buffer_views : List Json :=
      [bufferViewJson a1.2.1 a1.2.2 34962,
       bufferViewJson a2.2.1 a2.2.2 34962,
       bufferViewJson a3.2.1 a3.2.2 34962,
       bufferViewJson a4.2.1 a4.2.2 34963,
       .jobj [(chars "buffer", .jnat 0), (chars "byteOffset", .jnat a5.2.1),
         (chars "byteLength", .jnat a5.2.2)]]
    let accessors : List Json :=
      [.jobj [(chars "bufferView", .jnat 0), (chars "componentType", .jnat 5126),
         (chars "count", .jnat mesh.positions.length), (chars "type", .jstr (chars "VEC3")),
         (chars "min", .jarr [.jnum pmin.1, .jnum pmin.2.1, .jnum pmin.2.2]),
         (chars "max", .jarr [.jnum pmax.1, .jnum pmax.2.1, .jnum pmax.2.2])],
       .jobj [(chars "bufferView", .jnat 1), (chars "componentType", .jnat 5126),
         (chars "count", .jnat mesh.normals.length), (chars "type", .jstr (chars "VEC3"))],
       .jobj [(chars "bufferView", .jnat 2), (chars "componentType", .jnat 5126),
         (chars "count", .jnat mesh.uvs.length), (chars "type", .jstr (chars "VEC2"))],
       .jobj [(chars "bufferView", .jnat 3), (chars "componentType", .jnat 5125),
         (chars "count", .jnat mesh.indices.length), (chars "type", .jstr (chars "SCALAR"))]]
    let gltf : Json :=
      .jobj [
        (chars "asset", .jobj [(chars "version", .jstr (chars "2.0")),
          (chars "generator", .jstr (chars "BuilderGPT Preview"))]),
        (chars "scenes", .jarr [.jobj [(chars "nodes", .jarr [.jnat 0])]]),
        (chars "scene", .jnat 0),
        (chars "nodes", .jarr [.jobj [(chars "mesh", .jnat 0)]]),
        (chars "meshes", .jarr [.jobj [(chars "primitives", .jarr [
          .jobj [(chars "attributes", .jobj [(chars "POSITION", .jnat 0),
              (chars "NORMAL", .jnat 1), (chars "TEXCOORD_0", .jnat 2)]),
            (chars "indices", .jnat 3), (chars "material", .jnat 0)]])]]),
        (chars "buffers", .jarr [.jobj [(chars "byteLength", .jnat bin_chunk.length)]]),
        (chars "bufferViews", .jarr buffer_views),
        (chars "accessors", .jarr accessors),
        (chars "materials", .jarr [.jobj [(chars "pbrMetallicRoughness", .jobj [
          (chars "baseColorTexture", .jobj [(chars "index", .jnat 0)]),
          (chars "metallicFactor", .jnum 0), (chars "roughnessFactor", .jnum 1)])]]),
        (chars "samplers", .jarr [.jobj [(chars "magFilter", .jnat 9729),
          (chars "minFilter", .jnat 9987), (chars "wrapS", .jnat 10497),
          (chars "wrapT", .jnat 10497)]]),
        (chars "images", .jarr [.jobj [(chars "bufferView", .jnat 4),
          (chars "mimeType", .jstr (chars "image/png"))]]),
        (chars "textures", .jarr [.jobj [(chars "sampler", .jnat 0),
          (chars "source", .jnat 0)]])
      ]
    ⟨packGlbBin (padJson (strBytes (dumpJson 16 gltf))) bin_chunk,
     ((pmin.1 + pmax.1) / 2, (pmin.2.1 + pmax.2.1) / 2, (pmin.2.2 + pmax.2.2) / 2),
     (pmax.1 - pmin.1, pmax.2.1 - pmin.2.1, pmax.2.2 - pmin.2.2)⟩

/-- Whether a container blob carries a binary chunk after its JSON chunk: at
least 8 further bytes, tagged `0x004E4942`. -/
def hasBinChunk (b : List Nat) : Bool :=
  let jl := readU32 b 12
  decide (12 + 8 + jl + 8 ≤ b.length) &&
    decide (readU32 b (12 + 8 + jl + 4) = BIN_CHUNK_TAG)

/-! ## Lemmas: container bytes -/

lemma getD_append_len (pre l : List Nat) (i : Nat) :
    (pre ++ l).getD (pre.length + i) 0 = l.getD i 0 := by
  induction pre with
  | nil => simp
  | cons a as ih =>
    show (a :: (as ++ l)).getD (as.length + 1 + i) 0 = l.getD i 0
    rw [show as.length + 1 + i = (as.length + i) + 1 by omega, List.getD_cons_succ]
    exact ih

lemma readU32_append (pre l : List Nat) :
    readU32 (pre ++ l) pre.length = readU32 l 0 := by
  simp only [readU32]
  have h0 : (pre ++ l).getD pre.length 0 = l.getD 0 0 := by
    simpa using getD_append_len pre l 0
  have h1 : (pre ++ l).getD (pre.length + 1) 0 = l.getD 1 0 := getD_append_len pre l 1
  have h2 : (pre ++ l).getD (pre.length + 2) 0 = l.getD 2 0 := getD_append_len pre l 2
  have h3 : (pre ++ l).getD (pre.length + 3) 0 = l.getD 3 0 := getD_append_len pre l 3
  rw [h0, h1, h2, h3]

lemma readU32_u32le_append (n : Nat) (rest : List Nat) :
    readU32 (u32le n ++ rest) 0 = n % 2 ^ 32 := by
  simp only [u32le, List.cons_append, List.nil_append, readU32,
    List.getD_cons_zero, List.getD_cons_succ]
  omega

lemma readU32_skip (pre : List Nat) (n : Nat) (rest : List Nat) (off : Nat)
    (h : pre.length = off) : readU32 (pre ++ (u32le n ++ rest)) off = n % 2 ^ 32 := by
  subst h
  rw [readU32_append]
  exact readU32_u32le_append n rest

lemma readU32_cons_succ (b : Nat) (l : List Nat) (k : Nat) :
    readU32 (b :: l) (k + 1) = readU32 l k := by
  simp only [readU32]
  rw [show k + 1 + 1 = (k + 1) + 1 from rfl, show k + 1 + 2 = (k + 2) + 1 by omega,
    show k + 1 + 3 = (k + 3) + 1 by omega]
  simp only [List.getD_cons_succ]

lemma readU32_append_u32le (m : Nat) (l : List Nat) (k : Nat) :
    readU32 (u32le m ++ l) (k + 4) = readU32 l k := by
  simp only [u32le, List.cons_append, List.nil_append]
  rw [show k + 4 = k + 3 + 1 by omega, readU32_cons_succ,
    show k + 3 = k + 2 + 1 by omega, readU32_cons_succ,
    show k + 2 = k + 1 + 1 by omega, readU32_cons_succ, readU32_cons_succ]

lemma padJson_mod4 (l : List Nat) : (padJson l).length % 4 = 0 := by
  simp only [padJson, List.length_append, List.length_replicate]
  omega

lemma append_with_padding_mod4 (t d : List Nat) (h : t.length % 4 = 0) :
    (append_with_padding t d).1.length % 4 = 0 := by
  simp only [append_with_padding, List.length_append, List.length_replicate]
  omega

lemma append5_mod4 (d1 d2 d3 d4 d5 : List Nat) :
    (append_with_padding (append_with_padding (append_with_padding (append_with_padding
      (append_with_padding [] d1).1 d2).1 d3).1 d4).1 d5).1.length % 4 = 0 := by
  apply append_with_padding_mod4
  apply append_with_padding_mod4
  apply append_with_padding_mod4
  apply append_with_padding_mod4
  apply append_with_padding_mod4
  rfl

lemma packGlbNoBin_length (jb : List Nat) :
    (packGlbNoBin jb).length = 20 + jb.length := by
  simp only [packGlbNoBin, u32le, List.length_append, List.length_cons, List.length_nil]
  omega

lemma packGlbNoBin_read8 (jb : List Nat) :
    readU32 (packGlbNoBin jb) 8 = (12 + 8 + jb.length) % 2 ^ 32 := by
  simp only [packGlbNoBin, List.append_assoc]
  rw [show (8 : Nat) = 4 + 4 from rfl, readU32_append_u32le,
    show (4 : Nat) = 0 + 4 from rfl, readU32_append_u32le]
  exact readU32_u32le_append _ _

lemma packGlbNoBin_read12 (jb : List Nat) :
    readU32 (packGlbNoBin jb) 12 = jb.length % 2 ^ 32 := by
  simp only [packGlbNoBin, List.append_assoc]
  rw [show (12 : Nat) = 8 + 4 from rfl, readU32_append_u32le,
    show (8 : Nat) = 4 + 4 from rfl, readU32_append_u32le,
    show (4 : Nat) = 0 + 4 from rfl, readU32_append_u32le]
  exact readU32_u32le_append _ _

lemma packGlbBin_length (jb bin : List Nat) :
    (packGlbBin jb bin).length = 28 + jb.length + bin.length := by
  simp only [packGlbBin, u32le, List.length_append, List.length_cons, List.length_nil]
  omega

lemma packGlbBin_read8 (jb bin : List Nat) :
    readU32 (packGlbBin jb bin) 8 = (12 + 8 + jb.length + 8 + bin.length) % 2 ^ 32 := by
  simp only [packGlbBin, List.append_assoc]
  rw [show (8 : Nat) = 4 + 4 from rfl, readU32_append_u32le,
    show (4 : Nat) = 0 + 4 from rfl, readU32_append_u32le]
  exact readU32_u32le_append _ _

lemma packGlbBin_read12 (jb bin : List Nat) :
    readU32 (packGlbBin jb bin) 12 = jb.length % 2 ^ 32 := by
  simp only [packGlbBin, List.append_assoc]
  rw [show (12 : Nat) = 8 + 4 from rfl, readU32_append_u32le,
    show (8 : Nat) = 4 + 4 from rfl, readU32_append_u32le,
    show (4 : Nat) = 0 + 4 from rfl, readU32_append_u32le]
  exact readU32_u32le_append _ _

lemma packGlbBin_read_binlen (jb bin : List Nat) :
    readU32 (packGlbBin jb bin) (20 + jb.length) = bin.length % 2 ^ 32 := by
  simp only [packGlbBin, List.append_assoc]
  rw [show 20 + jb.length = jb.length + 16 + 4 by omega, readU32_append_u32le,
    show jb.length + 16 = jb.length + 12 + 4 by omega, readU32_append_u32le,
    show jb.length + 12 = jb.length + 8 + 4 by omega, readU32_append_u32le,
    show jb.length + 8 = jb.length + 4 + 4 by omega, readU32_append_u32le,
    show jb.length + 4 = jb.length + 0 + 4 by omega, readU32_append_u32le]
  exact readU32_skip jb bin.length _ jb.length rfl

lemma mesh_to_glb_empty_bytes (mesh : MeshBuffers) (atlas : AtlasResult)
    (png : List Nat) (h : mesh.positions = []) :
    (mesh_to_glb mesh atlas png).glb_bytes
      = packGlbNoBin (padJson (strBytes (dumpJson 16 emptyGltfJson))) := by
  simp only [mesh_to_glb, if_pos h]

lemma mesh_to_glb_bin_bytes (mesh : MeshBuffers) (atlas : AtlasResult)
    (png : List Nat) (h : ¬ mesh.positions = []) :
    ∃ jb0 bin : List Nat, bin.length % 4 = 0 ∧
      (mesh_to_glb mesh atlas png).glb_bytes = packGlbBin (padJson jb0) bin := by
  simp only [mesh_to_glb, if_neg h]
  refine ⟨_, _, ?_, rfl⟩
  apply append5_mod4

/-- **C4, counterexample.** For an empty mesh the encoder emits *no* binary
chunk at all: the container ends immediately after the JSON chunk (its total
length is header + JSON chunk header + JSON), so it does not contain a
zero-length binary chunk. -/
theorem C4_no_bin_chunk :
    hasBinChunk (mesh_to_glb emptyMesh (build_atlas [] 32 6) []).glb_bytes = false ∧
      (mesh_to_glb emptyMesh (build_atlas [] 32 6) []).glb_bytes.length
        = 12 + 8 + readU32 (mesh_to_glb emptyMesh (build_atlas [] 32 6) []).glb_bytes 12 := by
  decide

/-- **C4, amended.** For every empty mesh (zero vertices) the asset encoder
does not raise and produces a container whose header declares a total length
equal to the actual byte count, whose JSON chunk length is a multiple of 4,
which carries **no binary chunk** (the blob ends after the JSON chunk), and
whose returned bounding-box center and size are the zero vector; the JSON
chunk is exactly the document with a zero-length buffer, no bufferViews, no
accessors, a mesh with no primitives and no materials. -/
theorem C4_empty_mesh_container (mesh : MeshBuffers) (atlas : AtlasResult)
    (png : List Nat) (h : mesh.positions = []) :
    readU32 (mesh_to_glb mesh atlas png).glb_bytes 8
        = (mesh_to_glb mesh atlas png).glb_bytes.length ∧
    readU32 (mesh_to_glb mesh atlas png).glb_bytes 12 % 4 = 0 ∧
    hasBinChunk (mesh_to_glb mesh atlas png).glb_bytes = false ∧
    (mesh_to_glb mesh atlas png).center = (0, 0, 0) ∧
    (mesh_to_glb mesh atlas png).size = (0, 0, 0) ∧
    dumpJson 16 emptyGltfJson = chars "\x7b\"asset\": \x7b\"version\": \"2.0\", \"generator\": \"BuilderGPT Preview\"\x7d, \"scenes\": [\x7b\"nodes\": [0]\x7d], \"scene\": 0, \"nodes\": [\x7b\"mesh\": 0\x7d], \"meshes\": [\x7b\"primitives\": []\x7d], \"buffers\": [\x7b\"byteLength\": 0\x7d], \"bufferViews\": [], \"accessors\": [], \"materials\": []\x7d" := by
  have hc : mesh_to_glb mesh atlas png
      = ⟨packGlbNoBin (padJson (strBytes (dumpJson 16 emptyGltfJson))),
         (0, 0, 0), (0, 0, 0)⟩ := by
    simp only [mesh_to_glb, if_pos h]
  rw [hc]
  exact ⟨by decide, by decide, by decide, rfl, rfl, by decide⟩

/-- **C4, witness.** The amended statement at the concrete empty mesh. -/
theorem C4_empty_mesh_container_witness :
    emptyMesh.positions = [] ∧
    (readU32 (mesh_to_glb emptyMesh (build_atlas [] 32 6) []).glb_bytes 8
        = (mesh_to_glb emptyMesh (build_atlas [] 32 6) []).glb_bytes.length ∧
    readU32 (mesh_to_glb emptyMesh (build_atlas [] 32 6) []).glb_bytes 12 % 4 = 0 ∧
    hasBinChunk (mesh_to_glb emptyMesh (build_atlas [] 32 6) []).glb_bytes = false ∧
    (mesh_to_glb emptyMesh (build_atlas [] 32 6) []).center = (0, 0, 0) ∧
    (mesh_to_glb emptyMesh (build_atlas [] 32 6) []).size = (0, 0, 0) ∧
    dumpJson 16 emptyGltfJson = chars "\x7b\"asset\": \x7b\"version\": \"2.0\", \"generator\": \"BuilderGPT Preview\"\x7d, \"scenes\": [\x7b\"nodes\": [0]\x7d], \"scene\": 0, \"nodes\": [\x7b\"mesh\": 0\x7d], \"meshes\": [\x7b\"primitives\": []\x7d], \"buffers\": [\x7b\"byteLength\": 0\x7d], \"bufferViews\": [], \"accessors\": [], \"materials\": []\x7d") :=
  ⟨rfl, C4_empty_mesh_container emptyMesh (build_atlas [] 32 6) [] rfl⟩

/-- **C6.** For every mesh and atlas (and any PNG byte string for the atlas
image), the produced blob's header declares a total length equal to the
blob's actual byte count, the JSON chunk length recorded in its chunk header
is a multiple of 4, and — whenever a binary chunk exists, i.e. for non-empty
meshes — the binary chunk length recorded in its chunk header is a multiple
of 4.  (The bound `< 2^32` mirrors `struct.pack("<I", ...)`, which cannot
represent larger totals.) -/
theorem C6_container_integrity (mesh : MeshBuffers) (atlas : AtlasResult)
    (atlas_png : List Nat)
    (hsize : (mesh_to_glb mesh atlas atlas_png).glb_bytes.length < 2 ^ 32) :
    readU32 (mesh_to_glb mesh atlas atlas_png).glb_bytes 8
        = (mesh_to_glb mesh atlas atlas_png).glb_bytes.length ∧
    readU32 (mesh_to_glb mesh atlas atlas_png).glb_bytes 12 % 4 = 0 ∧
    (mesh.positions ≠ [] →
      readU32 (mesh_to_glb mesh atlas atlas_png).glb_bytes
          (12 + 8 + readU32 (mesh_to_glb mesh atlas atlas_png).glb_bytes 12) % 4 = 0) := by
  by_cases hpos : mesh.positions = []
  · have hb := mesh_to_glb_empty_bytes mesh atlas atlas_png hpos
    rw [hb] at hsize ⊢
    rw [packGlbNoBin_length] at hsize
    have hjmod := padJson_mod4 (strBytes (dumpJson 16 emptyGltfJson))
    refine ⟨?_, ?_, fun hne => absurd hpos hne⟩
    · rw [packGlbNoBin_read8, packGlbNoBin_length]
      omega
    · rw [packGlbNoBin_read12]
      omega
  · obtain ⟨jb0, bin, hbmod, hb⟩ := mesh_to_glb_bin_bytes mesh atlas atlas_png hpos
    rw [hb] at hsize ⊢
    rw [packGlbBin_length] at hsize
    have hjmod := padJson_mod4 jb0
    have hjlt : (padJson jb0).length < 2 ^ 32 := by omega
    refine ⟨?_, ?_, fun _ => ?_⟩
    · rw [packGlbBin_read8, packGlbBin_length]
      omega
    · rw [packGlbBin_read12]
      omega
    · rw [packGlbBin_read12, Nat.mod_eq_of_lt hjlt,
        show 12 + 8 + (padJson jb0).length = 20 + (padJson jb0).length by omega,
        packGlbBin_read_binlen]
      omega

/-- **C6, witness.** Container integrity at a concrete (empty) mesh. -/
theorem C6_container_integrity_witness :
    (mesh_to_glb emptyMesh (build_atlas [] 32 6) []).glb_bytes.length < 2 ^ 32 ∧
    (readU32 (mesh_to_glb emptyMesh (build_atlas [] 32 6) []).glb_bytes 8
        = (mesh_to_glb emptyMesh (build_atlas [] 32 6) []).glb_bytes.length ∧
    readU32 (mesh_to_glb emptyMesh (build_atlas [] 32 6) []).glb_bytes 12 % 4 = 0 ∧
    (emptyMesh.positions ≠ [] →
      readU32 (mesh_to_glb emptyMesh (build_atlas [] 32 6) []).glb_bytes
          (12 + 8 + readU32 (mesh_to_glb emptyMesh (build_atlas [] 32 6) []).glb_bytes 12)
        % 4 = 0)) :=
  ⟨by decide, C6_container_integrity emptyMesh (build_atlas [] 32 6) [] (by decide)⟩

/-! ## The isolated-voxel scenario (C5) -/

/-- The `1×1×1` structure with palette `[minecraft:air, minecraft:stone]`
and voxel value 1. -/
def struct1 : StructureData := ⟨1, 1, 1, [airEntry, stoneEntry], fun _ _ _ => 1⟩

/-- A single stone voxel centered in an all-air `3×3×3` grid. -/
def struct3 : StructureData :=
  ⟨3, 3, 3, [airEntry, stoneEntry],
   fun x y z => if x = 1 ∧ y = 1 ∧ z = 1 then 1 else 0⟩

/- Batteries marks the `Rat` arithmetic operations `@[irreducible]`, which
blocks `decide`'s evaluation of exact rational vertex data; inside this
section they are restored to ordinary reducibility (the kernel ignores
reducibility attributes, so nothing about the trusted checking changes). -/
set_option allowUnsafeReducibility true

section

attribute [local semireducible] Rat.add Rat.mul Rat.inv Rat.div Rat.sub Rat.neg

/-- **C5.** A single solid opaque voxel whose 6 neighbors are all air or out
of bounds yields exactly 6 culled faces (both for the `1×1×1` stone structure
and for one stone voxel centered in an all-air `3×3×3` grid); assembling the
`1×1×1` faces against the atlas built from the resolver's texture cache
yields a mesh with exactly 24 vertices and 36 indices, and the encoder's
derived bounding box has center `(1/2, 1/2, 1/2)` and size `(1, 1, 1)`. -/
theorem C5_isolated_voxel :
    (culled_faces noSrc false struct1 initialBaker).1.length = 6 ∧
    (culled_faces noSrc false struct3 initialBaker).1.length = 6 ∧
    (build_mesh (culled_faces noSrc false struct1 initialBaker).1
        (build_atlas (culled_faces noSrc false struct1 initialBaker).2.texture_cache
          32 6).uv_rects).positions.length = 24 ∧
    (build_mesh (culled_faces noSrc false struct1 initialBaker).1
        (build_atlas (culled_faces noSrc false struct1 initialBaker).2.texture_cache
          32 6).uv_rects).indices.length = 36 ∧
    (build_mesh (culled_faces noSrc false struct3 initialBaker).1
        (build_atlas (culled_faces noSrc false struct3 initialBaker).2.texture_cache
          32 6).uv_rects).positions.length = 24 ∧
    (build_mesh (culled_faces noSrc false struct3 initialBaker).1
        (build_atlas (culled_faces noSrc false struct3 initialBaker).2.texture_cache
          32 6).uv_rects).indices.length = 36 ∧
    (mesh_to_glb (build_mesh (culled_faces noSrc false struct1 initialBaker).1
        (build_atlas (culled_faces noSrc false struct1 initialBaker).2.texture_cache
          32 6).uv_rects)
      (build_atlas (culled_faces noSrc false struct1 initialBaker).2.texture_cache 32 6)
      []).center = (1/2, 1/2, 1/2) ∧
    (mesh_to_glb (build_mesh (culled_faces noSrc false struct1 initialBaker).1
        (build_atlas (culled_faces noSrc false struct1 initialBaker).2.texture_cache
          32 6).uv_rects)
      (build_atlas (culled_faces noSrc false struct1 initialBaker).2.texture_cache 32 6)
      []).size = (1, 1, 1) := by
  decide

end

/-! ## Atlas UV properties (C7) -/

/-- A UV rectangle `(u0, v0, u1, v1)` lies inside the unit square with
nonempty interior: `0 ≤ u0 < u1 ≤ 1` and `0 ≤ v0 < v1 ≤ 1`. -/
def rectInBounds (r : ℚ × ℚ × ℚ × ℚ) : Prop :=
  0 ≤ r.1 ∧ r.1 < r.2.2.1 ∧ r.2.2.1 ≤ 1 ∧
  0 ≤ r.2.1 ∧ r.2.1 < r.2.2.2 ∧ r.2.2.2 ≤ 1

/-- Two UV rectangles do not overlap: they are separated along the u axis or
along the v axis. -/
def rectsDisjoint (r s : ℚ × ℚ × ℚ × ℚ) : Prop :=
  r.2.2.1 ≤ s.1 ∨ s.2.2.1 ≤ r.1 ∨ r.2.2.2 ≤ s.2.1 ∨ s.2.2.2 ≤ r.2.1

lemma ceilSqrt_pos (n : Nat) (h : 0 < n) : 0 < ceilSqrt n := by
  unfold ceilSqrt
  split
  · next heq =>
    rcases Nat.eq_zero_or_pos (Nat.sqrt n) with h0 | hpos
    · rw [h0] at heq ⊢
      omega
    · exact hpos
  · omega

/-- `count ≤ columns * ceil(count / columns)`: the grid has a cell for every
index below `count`. -/
lemma le_mul_ceilDiv (count columns : Nat) (hcol : 0 < columns) :
    count ≤ columns * ((count + columns - 1) / columns) := by
  by_contra hlt
  push_neg at hlt
  have h1 : ((count + columns - 1) / columns + 1) * columns ≤ count + columns - 1 := by
    have e : ((count + columns - 1) / columns + 1) * columns
        = columns * ((count + columns - 1) / columns) + columns := by ring
    omega
  have h2 := (Nat.le_div_iff_mul_le hcol).mpr h1
  omega

/-- Separation of consecutive cells along one axis: the right edge of the
inner region of cell `a` (inset by half a texel) lies left of the left edge
of the inner region of cell `b` when `a < b`. -/
lemma cellSep (stride tile_size padding a b : Nat) (W : ℚ)
    (hab : a < b) (hstride : stride = tile_size + padding * 2) (hW : 0 < W) :
    (((a * stride + padding + tile_size : Nat) : ℚ) - 1/2) / W
      ≤ (((b * stride + padding : Nat) : ℚ) + 1/2) / W := by
  have hnat : a * stride + padding + tile_size ≤ b * stride + padding := by
    have h1 : (a + 1) * stride ≤ b * stride := Nat.mul_le_mul_right stride (by omega)
    have e : (a + 1) * stride = a * stride + stride := by ring
    omega
  have hq : ((a * stride + padding + tile_size : Nat) : ℚ)
      ≤ ((b * stride + padding : Nat) : ℚ) := by exact_mod_cast hnat
  rw [div_le_div_iff₀ hW hW, mul_le_mul_right hW]
  linarith

lemma atlasRect_bounds (columns rows stride tile_size padding idx : Nat)
    (htile : 2 ≤ tile_size) (hstride : stride = tile_size + padding * 2)
    (hcol : 0 < columns) (hidx : idx < columns * rows) :
    rectInBounds (atlasRect columns stride tile_size padding
      (columns * stride) (rows * stride) idx) := by
  have hrows : 0 < rows := by
    rcases Nat.eq_zero_or_pos rows with h0 | h
    · rw [h0, Nat.mul_zero] at hidx
      omega
    · exact h
  have hstridepos : 0 < stride := by omega
  have hWpos : (0:ℚ) < ((columns * stride : Nat) : ℚ) := by
    exact_mod_cast Nat.mul_pos hcol hstridepos
  have hHpos : (0:ℚ) < ((rows * stride : Nat) : ℚ) := by
    exact_mod_cast Nat.mul_pos hrows hstridepos
  have ht2 : (2:ℚ) ≤ (tile_size : ℚ) := by exact_mod_cast htile
  have hxW : idx % columns * stride + padding + tile_size ≤ columns * stride := by
    have h1 : (idx % columns + 1) * stride ≤ columns * stride :=
      Nat.mul_le_mul_right stride (by have := Nat.mod_lt idx hcol; omega)
    have e : (idx % columns + 1) * stride = idx % columns * stride + stride := by ring
    omega
  have hyH : idx / columns * stride + padding + tile_size ≤ rows * stride := by
    have hrowm : idx / columns < rows := by
      rw [Nat.div_lt_iff_lt_mul hcol]
      have e : rows * columns = columns * rows := by ring
      omega
    have h1 : (idx / columns + 1) * stride ≤ rows * stride :=
      Nat.mul_le_mul_right stride (by omega)
    have e : (idx / columns + 1) * stride = idx / columns * stride + stride := by ring
    omega
  have hxWq : ((idx % columns * stride + padding + tile_size : Nat) : ℚ)
      ≤ ((columns * stride : Nat) : ℚ) := by exact_mod_cast hxW
  have hyHq : ((idx / columns * stride + padding + tile_size : Nat) : ℚ)
      ≤ ((rows * stride : Nat) : ℚ) := by exact_mod_cast hyH
  simp only [atlasRect, rectInBounds]
  refine ⟨?_, ?_, ?_, ?_, ?_, ?_⟩
  · apply div_nonneg ?_ (le_of_lt hWpos)
    positivity
  · rw [div_lt_div_iff₀ hWpos hWpos, mul_lt_mul_right hWpos]
    push_cast
    linarith
  · rw [div_le_one hWpos]
    push_cast at hxWq ⊢
    linarith
  · apply div_nonneg ?_ (le_of_lt hHpos)
    positivity
  · rw [div_lt_div_iff₀ hHpos hHpos, mul_lt_mul_right hHpos]
    push_cast
    linarith
  · rw [div_le_one hHpos]
    push_cast at hyHq ⊢
    linarith

lemma atlasRect_disjoint (columns rows stride tile_size padding i j : Nat)
    (htile : 2 ≤ tile_size) (hstride : stride = tile_size + padding * 2)
    (hcol : 0 < columns) (hrows : 0 < rows) (hne : i ≠ j) :
    rectsDisjoint
      (atlasRect columns stride tile_size padding (columns * stride) (rows * stride) i)
      (atlasRect columns stride tile_size padding (columns * stride) (rows * stride) j) := by
  have hstridepos : 0 < stride := by omega
  have hWpos : (0:ℚ) < ((columns * stride : Nat) : ℚ) := by
    exact_mod_cast Nat.mul_pos hcol hstridepos
  have hHpos : (0:ℚ) < ((rows * stride : Nat) : ℚ) := by
    exact_mod_cast Nat.mul_pos hrows hstridepos
  simp only [atlasRect, rectsDisjoint]
  rcases Nat.lt_trichotomy (i % columns) (j % columns) with hc | hc | hc
  · exact Or.inl (cellSep stride tile_size padding _ _ _ hc hstride hWpos)
  · rcases Nat.lt_trichotomy (i / columns) (j / columns) with hr | hr | hr
    · exact Or.inr (Or.inr (Or.inl
        (cellSep stride tile_size padding _ _ _ hr hstride hHpos)))
    · exfalso
      apply hne
      have hi := Nat.div_add_mod i columns
      have hj := Nat.div_add_mod j columns
      rw [hr, hc] at hi
      omega
    · exact Or.inr (Or.inr (Or.inr
        (cellSep stride tile_size padding _ _ _ hr hstride hHpos)))
  · exact Or.inr (Or.inl (cellSep stride tile_size padding _ _ _ hc hstride hWpos))

/-- **C7.** For every non-empty input mapping of texture keys to images (with
its distinct dict keys) and any tile size of at least 2 texels (32 in the
pipeline), every UV rectangle produced by the atlas packer satisfies
`0 ≤ u0 < u1 ≤ 1` and `0 ≤ v0 < v1 ≤ 1`, and the rectangles assigned to
distinct keys do not overlap (each lies inside its own grid cell's inner
region, inset by half a texel on every side). -/
theorem C7_atlas_uv (images : List (List Char × Img)) (tile_size padding : Nat)
    (hne : ¬ images = []) (htile : 2 ≤ tile_size)
    (hnodup : (images.map Prod.fst).Nodup) :
    (∀ kr ∈ (build_atlas images tile_size padding).uv_rects, rectInBounds kr.2) ∧
    (∀ kr1 ∈ (build_atlas images tile_size padding).uv_rects,
      ∀ kr2 ∈ (build_atlas images tile_size padding).uv_rects,
        kr1.1 ≠ kr2.1 → rectsDisjoint kr1.2 kr2.2) := by
  simp only [build_atlas, if_neg hne]
  have hcount : 0 < (images.map Prod.fst).length := by
    simp only [List.length_map]
    exact List.length_pos.mpr hne
  have hcol : 0 < ceilSqrt (images.map Prod.fst).length := ceilSqrt_pos _ hcount
  have hrows : 0 < ((images.map Prod.fst).length + ceilSqrt (images.map Prod.fst).length - 1)
      / ceilSqrt (images.map Prod.fst).length := Nat.div_pos (by omega) hcol
  have hcr := le_mul_ceilDiv (images.map Prod.fst).length
    (ceilSqrt (images.map Prod.fst).length) hcol
  constructor
  · intro kr hkr
    obtain ⟨ik, hik, rfl⟩ := List.mem_map.mp hkr
    have hg := List.mem_enum_iff_getElem?.mp hik
    have hlt : ik.1 < (images.map Prod.fst).length := by
      rcases List.getElem?_eq_some.mp hg with ⟨h, _⟩
      exact h
    exact atlasRect_bounds _ _ _ _ _ _ htile rfl hcol (by omega)
  · intro kr1 hkr1 kr2 hkr2 hkne
    obtain ⟨ik1, hik1, rfl⟩ := List.mem_map.mp hkr1
    obtain ⟨ik2, hik2, rfl⟩ := List.mem_map.mp hkr2
    have hg1 := List.mem_enum_iff_getElem?.mp hik1
    have hg2 := List.mem_enum_iff_getElem?.mp hik2
    have hine : ik1.1 ≠ ik2.1 := by
      intro he
      apply hkne
      rw [he] at hg1
      rw [hg1] at hg2
      exact Option.some.inj hg2
    exact atlasRect_disjoint _ _ _ _ _ _ _ htile rfl hcol hrows hine

/-- **C7, witness.** The atlas properties at a concrete two-texture input. -/
theorem C7_atlas_uv_witness :
    (¬ ([(chars "a", Img.ext []), (chars "b", Img.ext [])]
        : List (List Char × Img)) = [] ∧
      2 ≤ 32 ∧
      (([(chars "a", Img.ext []), (chars "b", Img.ext [])]
        : List (List Char × Img)).map Prod.fst).Nodup) ∧
    ((∀ kr ∈ (build_atlas [(chars "a", Img.ext []), (chars "b", Img.ext [])] 32 6).uv_rects,
        rectInBounds kr.2) ∧
    (∀ kr1 ∈ (build_atlas [(chars "a", Img.ext []), (chars "b", Img.ext [])] 32 6).uv_rects,
      ∀ kr2 ∈ (build_atlas [(chars "a", Img.ext []), (chars "b", Img.ext [])] 32 6).uv_rects,
        kr1.1 ≠ kr2.1 → rectsDisjoint kr1.2 kr2.2)) :=
  ⟨⟨by decide, by decide, by decide⟩,
   C7_atlas_uv [(chars "a", Img.ext []), (chars "b", Img.ext [])] 32 6
     (by decide) (by decide) (by decide)⟩

/-! ## `load_structure` error behaviour (C8)

The NBT file parse itself (`nbtlib.load`) is external library code; its
result is modelled as a root compound that carries the fields §6 of the spec
requires (`Width`, `Height`, `Length`, `Palette` — non-negative sizes, as
specified) plus the optional `BlockData` / `BlockStates` fields the code
branches on.  `os.path.isfile` is modelled by the `fileExists` flag. -/

/-- The ways `load_structure` can fail. -/
inductive LoadError where
  | fileNotFound
  | formatError
  /-- Python `OverflowError` from `int.to_bytes(8, "little", signed=False)`
  on a negative 64-bit word. -/
  | overflowError
deriving DecidableEq

/-- The parsed root compound of a schematic file. -/
structure NbtRoot where
  width : Nat
  height : Nat
  length : Nat
  /-- `Palette`: block-state string ↦ palette id. -/
  palette : List (List Char × Nat)
  blockData : Option (List Int)
  blockStates : Option (List Int)

/-- Python `value.to_bytes(8, byteorder="little", signed=False)`: eight
little-endian bytes, or an `OverflowError` (modelled as `none`) when the
value is negative or does not fit. -/
def int64ToBytesLE (v : Int) : Option (List Nat) :=
  if v < 0 ∨ (2:Int) ^ 64 ≤ v then none
  else some ((List.range 8).map (fun i => v.toNat / 256 ^ i % 256))

/-- The `for long_val in block_states_tag` loop (loader.py lines 116–118):
expand each 64-bit word to bytes, failing like the source on the first
word `to_bytes` rejects. -/
def expandLongs : List Int → Option (List Nat)
  | [] => some []
  | v :: rest =>
    match int64ToBytesLE v, expandLongs rest with
    | some b, some bs => some (b ++ bs)
    | _, _ => none

/-- `load_structure` (loader.py lines 75–131). -/
def load_structure (fileExists : Bool) (root : NbtRoot) :
    Except LoadError StructureData :=
  if fileExists = false then .error .fileNotFound
  else
    let width := root.width
    let height := root.height
    let length := root.length
    let palette_reverse := root.palette.foldl
      (fun d kv => dictInsert d kv.2 (parse_palette_entry kv.1)) []
    let palette := (sortLe (fun a b => decide (a ≤ b))
      (palette_reverse.map Prod.fst)).filterMap (dictGet? palette_reverse)
    let total_blocks := width * height * length
    let decodeFrom (block_data : List Int) : StructureData :=
      let indices := decode_block_data block_data palette.length total_blocks
      ⟨width, height, length, palette,
       fun x y z => placeVoxels width length indices (x, y, z)⟩
    match root.blockData with
    | some bd => .ok (decodeFrom bd)
    | none =>
      match root.blockStates with
      | none => .error .formatError
      | some longs =>
        match expandLongs longs with
        | none => .error .overflowError
        | some raw_bytes => .ok (decodeFrom (raw_bytes.map Int.ofNat))

/-- Under the spec's input domain (64-bit words that `to_bytes` accepts),
`load_structure` fails with not-found exactly when the file is absent, with
a format error exactly when both `BlockData` and `BlockStates` are missing,
and succeeds otherwise — the classification the claim describes. -/
theorem load_structure_errors (e : Bool) (root : NbtRoot)
    (hlongs : ∀ longs, root.blockStates = some longs →
      ∀ v ∈ longs, 0 ≤ v ∧ v < 2 ^ 64) :
    (load_structure e root = .error .fileNotFound ↔ e = false) ∧
    (load_structure e root = .error .formatError ↔
      (e = true ∧ root.blockData = none ∧ root.blockStates = none)) ∧
    ((e = true ∧ ¬ (root.blockData = none ∧ root.blockStates = none)) →
      ∃ s, load_structure e root = .ok s) := by
  have hexp : ∀ longs, root.blockStates = some longs →
      ∃ bs, expandLongs longs = some bs := by
    intro longs hsome
    have hl := hlongs longs hsome
    clear hsome
    induction longs with
    | nil => exact ⟨[], rfl⟩
    | cons v rest ih =>
      have hv := hl v (List.mem_cons_self v rest)
      obtain ⟨bs, hbs⟩ := ih (fun w hw => hl w (List.mem_cons_of_mem v hw))
      refine ⟨(List.range 8).map (fun i => v.toNat / 256 ^ i % 256) ++ bs, ?_⟩
      simp only [expandLongs, int64ToBytesLE, hbs]
      rw [if_neg (by omega)]
  rcases e with _ | _
  · refine ⟨by simp [load_structure], by simp [load_structure], by simp⟩
  · rcases hbd : root.blockData with _ | bd
    · rcases hbs : root.blockStates with _ | longs
      · simp only [load_structure, hbd, hbs]
        refine ⟨by simp, by simp, by simp⟩
      · obtain ⟨bs, hexpand⟩ := hexp longs hbs
        simp only [load_structure, hbd, hbs, hexpand]
        refine ⟨by simp, by simp, fun _ => ⟨_, rfl⟩⟩
    · simp only [load_structure, hbd]
      refine ⟨by simp, by simp, fun _ => ⟨_, rfl⟩⟩

/-- **C8** (code bug).  A legacy schematic whose `BlockStates` long array
contains a negative 64-bit word — the normal case for packed block data with
the high bit set — makes `load_structure` raise `OverflowError` from
`int.to_bytes(8, "little", signed=False)` (loader.py line 118): a third
error besides not-found and format error, contradicting the claim (and spec
§4.1/§7) that all other malformed input is tolerated leniently. -/
theorem C8_negative_long_overflow :
    load_structure true ⟨1, 1, 1, [(chars "minecraft:air", 0)], none, some [-1]⟩
      = .error .overflowError ∧
    LoadError.overflowError ≠ LoadError.fileNotFound ∧
    LoadError.overflowError ≠ LoadError.formatError :=
  ⟨rfl, by decide, by decide⟩

/-! ## The no-dropped-faces invariant (C9)

Every texture key a baked block assigns to a face is cached in the baker's
texture cache at the moment the block is produced, and the texture cache only
grows; hence every culled face's key is present in the final cache, the atlas
built from that cache covers it, and the mesh assembler's drop branch never
fires. -/

/-- A texture key is present in the baker's texture cache. -/
def keyCached (st : BakerState) (k : List Char) : Prop :=
  k ∈ st.texture_cache.map Prod.fst

lemma hasKey_iff {α β : Type} [DecidableEq α] (d : List (α × β)) (k : α) :
    hasKey d k = true ↔ k ∈ d.map Prod.fst := by
  simp only [hasKey, List.any_eq_true, decide_eq_true_eq, List.mem_map]

lemma dictGet?_mem {α β : Type} [DecidableEq α] (d : List (α × β)) (k : α) (v : β)
    (h : dictGet? d k = some v) : ∃ p ∈ d, p.2 = v := by
  simp only [dictGet?, Option.map_eq_some'] at h
  obtain ⟨p, hfind, hsnd⟩ := h
  exact ⟨p, List.mem_of_find?_eq_some hfind, hsnd⟩

lemma dictGet?_isSome_of_mem {α β : Type} [DecidableEq α] (d : List (α × β)) (k : α)
    (h : k ∈ d.map Prod.fst) : ∃ v, dictGet? d k = some v := by
  rcases hfind : List.find? (fun p => decide (p.1 = k)) d with _ | p
  · exfalso
    obtain ⟨p, hp, he⟩ := List.mem_map.mp h
    have hnone := List.find?_eq_none.mp hfind p hp
    simp [he] at hnone
  · exact ⟨p.2, by simp [dictGet?, hfind]⟩

lemma dictInsert_values {α β : Type} [DecidableEq α] (d : List (α × β)) (k : α) (v : β)
    (p : α × β) (hp : p ∈ dictInsert d k v) : p.2 = v ∨ p ∈ d := by
  simp only [dictInsert] at hp
  split at hp
  · obtain ⟨q, hq, he⟩ := List.mem_map.mp hp
    by_cases hqk : q.1 = k
    · rw [if_pos hqk] at he
      left
      rw [← he]
    · rw [if_neg hqk] at he
      right
      rw [← he]
      exact hq
  · rcases List.mem_append.mp hp with h | h
    · right
      exact h
    · left
      simp only [List.mem_singleton] at h
      rw [h]

lemma ensure_texture_cached_spec (src : List Char → Option Img) (st : BakerState)
    (key : List Char) :
    (ensure_texture_cached src st key).2.cache = st.cache ∧
    (∀ k, keyCached st k → keyCached (ensure_texture_cached src st key).2 k) ∧
    ((ensure_texture_cached src st key).1 = true →
      keyCached (ensure_texture_cached src st key).2 key) := by
  simp only [ensure_texture_cached]
  split
  · next h =>
    exact ⟨by trivial, fun k hk => hk, fun _ => (hasKey_iff _ _).mp h⟩
  · next h =>
    rcases hsrc : src key with _ | img
    · simp only [hsrc]
      exact ⟨by trivial, fun k hk => hk, by simp⟩
    · simp only [hsrc]
      refine ⟨by trivial, fun k hk => ?_, fun _ => ?_⟩
      · simp only [keyCached, List.map_append]
        exact List.mem_append_left _ hk
      · simp only [keyCached, List.map_append]
        exact List.mem_append_right _ (by simp)

lemma tryCandidates_spec (src : List Char → Option Img) :
    ∀ (cands : List (List Char)) (st : BakerState),
      (tryCandidates src st cands).2.cache = st.cache ∧
      (∀ k, keyCached st k → keyCached (tryCandidates src st cands).2 k) ∧
      (∀ key, (tryCandidates src st cands).1 = some key →
        keyCached (tryCandidates src st cands).2 key)
  | [], st => ⟨rfl, fun _ hk => hk, by simp [tryCandidates]⟩
  | c :: rest, st => by
    obtain ⟨hc1, hm1, hk1⟩ := ensure_texture_cached_spec src st (normalize_texture_key c)
    simp only [tryCandidates]
    split
    · next htrue =>
      refine ⟨hc1, hm1, fun key hkey => ?_⟩
      have he : normalize_texture_key c = key := by
        simpa using hkey
      exact he ▸ hk1 htrue
    · next hfalse =>
      obtain ⟨hc2, hm2, hk2⟩ := tryCandidates_spec src rest
        (ensure_texture_cached src st (normalize_texture_key c)).2
      exact ⟨hc2.trans hc1, fun k hk => hm2 k (hm1 k hk), hk2⟩

lemma ctfStep_spec (src : List Char → Option Img) (base_name : List Char)
    (acc : List (List Char × List Char) × BakerState) (face : List Char) :
    (ctfStep src base_name acc face).2.cache = acc.2.cache ∧
    (∀ k, keyCached acc.2 k → keyCached (ctfStep src base_name acc face).2 k) ∧
    (∀ kv ∈ (ctfStep src base_name acc face).1, kv ∈ acc.1 ∨ kv.1 = face) ∧
    ((∀ kv ∈ acc.1, keyCached acc.2 kv.2) →
      ∀ kv ∈ (ctfStep src base_name acc face).1,
        keyCached (ctfStep src base_name acc face).2 kv.2) := by
  obtain ⟨htc, htm, htk⟩ := tryCandidates_spec src (face_candidates base_name face) acc.2
  simp only [ctfStep]
  rcases hr : (tryCandidates src acc.2 (face_candidates base_name face)).1 with _ | key
  · exact ⟨htc, htm, fun kv hkv => Or.inl hkv, fun hacc kv hkv => htm _ (hacc kv hkv)⟩
  · refine ⟨htc, htm, fun kv hkv => ?_, fun hacc kv hkv => ?_⟩
    · rcases List.mem_append.mp hkv with h | h
      · exact Or.inl h
      · right
        simp only [List.mem_singleton] at h
        rw [h]
    · rcases List.mem_append.mp hkv with h | h
      · exact htm _ (hacc kv h)
      · simp only [List.mem_singleton] at h
        rw [h]
        exact htk key hr

lemma ctf_fold_spec (src : List Char → Option Img) (base_name : List Char) :
    ∀ (fl : List (List Char)) (acc : List (List Char × List Char) × BakerState),
      ((fl.foldl (ctfStep src base_name) acc).2.cache = acc.2.cache) ∧
      (∀ k, keyCached acc.2 k → keyCached (fl.foldl (ctfStep src base_name) acc).2 k) ∧
      (∀ kv ∈ (fl.foldl (ctfStep src base_name) acc).1, kv ∈ acc.1 ∨ kv.1 ∈ fl) ∧
      ((∀ kv ∈ acc.1, keyCached acc.2 kv.2) →
        ∀ kv ∈ (fl.foldl (ctfStep src base_name) acc).1,
          keyCached (fl.foldl (ctfStep src base_name) acc).2 kv.2)
  | [], acc => ⟨by trivial, fun _ hk => hk, fun kv hkv => Or.inl hkv, fun h => h⟩
  | f :: fl, acc => by
    obtain ⟨hs1, hs2, hs3, hs4⟩ := ctfStep_spec src base_name acc f
    obtain ⟨ih1, ih2, ih3, ih4⟩ := ctf_fold_spec src base_name fl (ctfStep src base_name acc f)
    rw [List.foldl_cons]
    refine ⟨ih1.trans hs1, fun k hk => ih2 k (hs2 k hk), fun kv hkv => ?_,
      fun hacc => ih4 (hs4 hacc)⟩
    rcases ih3 kv hkv with h | h
    · rcases hs3 kv h with h2 | h2
      · exact Or.inl h2
      · exact Or.inr (h2 ▸ List.mem_cons_self _ _)
    · exact Or.inr (List.mem_cons_of_mem f h)

lemma setdefault_fold_values (fallback : List Char) :
    ∀ (fl : List (List Char)) (fs : List (List Char × List Char))
      (kv : List Char × List Char),
      kv ∈ fl.foldl (setdefaultStep fallback) fs → kv ∈ fs ∨ kv.2 = fallback
  | [], fs, kv, h => Or.inl h
  | f :: fl, fs, kv, h => by
    rw [List.foldl_cons] at h
    rcases setdefault_fold_values fallback fl (setdefaultStep fallback fs f) kv h with h2 | h2
    · simp only [setdefaultStep] at h2
      split at h2
      · exact Or.inl h2
      · rcases List.mem_append.mp h2 with h3 | h3
        · exact Or.inl h3
        · right
          simp only [List.mem_singleton] at h3
          rw [h3]
    · exact Or.inr h2

lemma hasKey_append_left {α β : Type} [DecidableEq α] (d l : List (α × β)) (k : α)
    (h : hasKey d k = true) : hasKey (d ++ l) k = true := by
  rw [hasKey_iff] at h ⊢
  rw [List.map_append]
  exact List.mem_append_left _ h

lemma setdefault_fold_hasKey_mono (fallback : List Char) :
    ∀ (fl : List (List Char)) (fs : List (List Char × List Char)) (k : List Char),
      hasKey fs k = true → hasKey (fl.foldl (setdefaultStep fallback) fs) k = true
  | [], fs, k, h => h
  | f :: fl, fs, k, h => by
    rw [List.foldl_cons]
    apply setdefault_fold_hasKey_mono fallback fl
    simp only [setdefaultStep]
    split
    · exact h
    · exact hasKey_append_left fs _ k h

lemma setdefault_fold_hasKey (fallback : List Char) :
    ∀ (fl : List (List Char)) (fs : List (List Char × List Char)) (face : List Char),
      face ∈ fl → hasKey (fl.foldl (setdefaultStep fallback) fs) face = true
  | [], _, _, h => absurd h (List.not_mem_nil _)
  | f :: fl, fs, face, h => by
    rw [List.foldl_cons]
    rcases List.mem_cons.mp h with h1 | h1
    · apply setdefault_fold_hasKey_mono fallback fl
      subst h1
      simp only [setdefaultStep]
      split
      · next hk => exact hk
      · rw [hasKey_iff, List.map_append]
        exact List.mem_append_right _ (by simp)
    · exact setdefault_fold_hasKey fallback fl _ face h1

lemma cube_face_textures_spec (src : List Char → Option Img) (hs : Bool)
    (st : BakerState) (entry : PaletteEntry) :
    (cube_face_textures src hs st entry).2.cache = st.cache ∧
    (∀ k, keyCached st k → keyCached (cube_face_textures src hs st entry).2 k) ∧
    (∀ tf, (cube_face_textures src hs st entry).1 = some tf →
      ∀ kv ∈ tf, keyCached (cube_face_textures src hs st entry).2 kv.2) := by
  simp only [cube_face_textures]
  split
  · exact ⟨by trivial, fun _ hk => hk, by simp⟩
  · set base_name := (splitOnChar ':' entry.namespaced_name).getLastD entry.namespaced_name
      with hbn
    set step := FACE_ORDER.foldl (ctfStep src base_name) ([], st) with hstepdef
    obtain ⟨hf1, hf2, hf3, hf4⟩ := ctf_fold_spec src base_name FACE_ORDER ([], st)
    rw [← hstepdef] at hf1 hf2 hf3 hf4
    have hfacesgood : ∀ kv ∈ step.1, keyCached step.2 kv.2 := hf4 (by simp)
    split
    · next hempty => exact ⟨hf1, hf2, by simp⟩
    · next hnonempty =>
      refine ⟨hf1, hf2, fun tf htf kv hkv => ?_⟩
      set fallback := ((FACE_ORDER.find? (fun f => hasKey step.1 f)).bind
        (dictGet? step.1)).getD [] with hfbdef
      have hfallback : keyCached step.2 fallback := by
        obtain ⟨kv0, hkv0⟩ := List.exists_mem_of_ne_nil step.1 hnonempty
        have hface0 : kv0.1 ∈ FACE_ORDER := by
          rcases hf3 kv0 hkv0 with h | h
          · cases h
          · exact h
        have hkey0 : hasKey step.1 kv0.1 = true :=
          (hasKey_iff _ _).mpr (List.mem_map.mpr ⟨kv0, hkv0, rfl⟩)
        have hfindsome : (FACE_ORDER.find? (fun f => hasKey step.1 f)).isSome := by
          rw [List.find?_isSome]
          exact ⟨kv0.1, hface0, hkey0⟩
        obtain ⟨f0, hfind⟩ := Option.isSome_iff_exists.mp hfindsome
        have hf0key : hasKey step.1 f0 = true := List.find?_some hfind
        obtain ⟨v0, hv0⟩ := dictGet?_isSome_of_mem step.1 f0 ((hasKey_iff _ _).mp hf0key)
        obtain ⟨p0, hp0, hp0v⟩ := dictGet?_mem _ _ _ hv0
        rw [hfbdef, hfind, Option.some_bind, hv0, Option.getD_some]
        rw [← hp0v]
        exact hfacesgood p0 hp0
      set faces2 := FACE_ORDER.foldl (setdefaultStep fallback) step.1 with hf2def
      have hgood2 : ∀ kw ∈ faces2, keyCached step.2 kw.2 := by
        intro kw hkw
        rcases setdefault_fold_values fallback FACE_ORDER step.1 kw hkw with h | h
        · exact hfacesgood kw h
        · rw [h]
          exact hfallback
      have hcachedGet : ∀ face : List Char, face ∈ FACE_ORDER →
          keyCached step.2 ((dictGet? faces2 face).getD []) := by
        intro face hface
        have hk := setdefault_fold_hasKey fallback FACE_ORDER step.1 face hface
        rw [← hf2def] at hk
        obtain ⟨v, hv⟩ := dictGet?_isSome_of_mem faces2 face ((hasKey_iff _ _).mp hk)
        obtain ⟨p, hp, hpv⟩ := dictGet?_mem _ _ _ hv
        rw [hv, Option.getD_some, ← hpv]
        exact hgood2 p hp
      have htop := hcachedGet (chars "up") (by simp [FACE_ORDER])
      have hbot := hcachedGet (chars "down") (by simp [FACE_ORDER])
      have hside := hcachedGet (chars "north") (by simp [FACE_ORDER])
      have htf2 := Option.some.inj htf
      rw [← htf2] at hkv
      clear htf htf2
      rcases hax : dictGet? entry.properties (chars "axis") with _ | ax
      · rw [hax] at hkv
        simp only [] at hkv
        exact hgood2 kv hkv
      · rw [hax] at hkv
        simp only [] at hkv
        split at hkv
        · split at hkv
          · rcases dictInsert_values _ _ _ kv hkv with h | hkv2
            · rw [h]; exact hside
            rcases dictInsert_values _ _ _ kv hkv2 with h | hkv3
            · rw [h]; exact hside
            rcases dictInsert_values _ _ _ kv hkv3 with h | hkv4
            · rw [h]; exact htop
            rcases dictInsert_values _ _ _ kv hkv4 with h | hkv5
            · rw [h]; exact htop
            exact hgood2 kv hkv5
          · split at hkv
            · rcases dictInsert_values _ _ _ kv hkv with h | hkv2
              · rw [h]; exact hside
              rcases dictInsert_values _ _ _ kv hkv2 with h | hkv3
              · rw [h]; exact hside
              rcases dictInsert_values _ _ _ kv hkv3 with h | hkv4
              · rw [h]; exact htop
              rcases dictInsert_values _ _ _ kv hkv4 with h | hkv5
              · rw [h]; exact htop
              exact hgood2 kv hkv5
            · rcases dictInsert_values _ _ _ kv hkv with h | hkv2
              · rw [h]; exact hbot
              rcases dictInsert_values _ _ _ kv hkv2 with h | hkv3
              · rw [h]; exact htop
              exact hgood2 kv hkv3
        · exact hgood2 kv hkv

lemma FACE_DEFINITIONS_pos_len : ∀ fd ∈ FACE_DEFINITIONS, fd.2.1.length = 4 := by
  decide

lemma unit_cube_faces_values (tk : List Char)
    (ov : Option (List (List Char × List Char))) :
    ∀ kv ∈ unit_cube_faces tk ov,
      kv.2.positions.length = 4 ∧
      (kv.2.texture_key = tk ∨ ∃ o, ov = some o ∧ ∃ p ∈ o, p.2 = kv.2.texture_key) := by
  intro kv hkv
  simp only [unit_cube_faces] at hkv
  obtain ⟨fd, hfd, he⟩ := List.mem_map.mp hkv
  rw [← he]
  refine ⟨FACE_DEFINITIONS_pos_len fd hfd, ?_⟩
  rcases ov with _ | o
  · left
    rfl
  · rcases h1 : dictGet? o fd.1 with _ | v1
    · rcases h2 : dictGet? o (chars "side") with _ | v2
      · left
        simp [h1, h2]
      · right
        refine ⟨o, rfl, ?_⟩
        obtain ⟨p, hp, hpv⟩ := dictGet?_mem _ _ _ h2
        exact ⟨p, hp, by simp [h1, h2, hpv]⟩
    · right
      refine ⟨o, rfl, ?_⟩
      obtain ⟨p, hp, hpv⟩ := dictGet?_mem _ _ _ h1
      exact ⟨p, hp, by simp [h1, hpv]⟩

lemma hashed_color_cube_spec (st : BakerState) (entry : PaletteEntry) :
    (hashed_color_cube st entry).2.cache = st.cache ∧
    (∀ k, keyCached st k → keyCached (hashed_color_cube st entry).2 k) ∧
    (∀ fb ∈ (hashed_color_cube st entry).1.faces,
      keyCached (hashed_color_cube st entry).2 fb.2.texture_key ∧
        fb.2.positions.length = 4) := by
  simp only [hashed_color_cube]
  split
  · next h =>
    refine ⟨rfl, fun k hk => hk, fun fb hfb => ?_⟩
    obtain ⟨hlen, hkey⟩ := unit_cube_faces_values entry.cache_key none fb hfb
    rcases hkey with hk | ⟨o, ho, _⟩
    · exact ⟨hk ▸ (hasKey_iff _ _).mp h, hlen⟩
    · cases ho
  · next h =>
    refine ⟨rfl, fun k hk => ?_, fun fb hfb => ?_⟩
    · simp only [keyCached, List.map_append]
      exact List.mem_append_left _ hk
    · obtain ⟨hlen, hkey⟩ := unit_cube_faces_values entry.cache_key none fb hfb
      rcases hkey with hk | ⟨o, ho, _⟩
      · refine ⟨?_, hlen⟩
        rw [hk]
        simp only [keyCached, List.map_append]
        exact List.mem_append_right _ (by simp)
      · cases ho

lemma orElse_eq_some_cases {α : Type} (o : Option α) (f : Unit → Option α) (v : α)
    (h : o.orElse f = some v) : o = some v ∨ f () = some v := by
  cases o
  · exact Or.inr h
  · exact Or.inl h

lemma bake_primary_key_mem (tf : List (List Char × List Char)) (pk : List Char)
    (h : ((((((dictGet? tf (chars "north")).orElse
      (fun _ => dictGet? tf (chars "east"))).orElse
      (fun _ => dictGet? tf (chars "west"))).orElse
      (fun _ => dictGet? tf (chars "south"))).orElse
      (fun _ => dictGet? tf (chars "up"))).orElse
      (fun _ => dictGet? tf (chars "down"))) = some pk) :
    ∃ p ∈ tf, p.2 = pk := by
  have hm : ∀ f : List Char, dictGet? tf f = some pk → ∃ p ∈ tf, p.2 = pk :=
    fun f hf => dictGet?_mem tf f pk hf
  rcases orElse_eq_some_cases _ _ _ h with h1 | h1
  · rcases orElse_eq_some_cases _ _ _ h1 with h2 | h2
    · rcases orElse_eq_some_cases _ _ _ h2 with h3 | h3
      · rcases orElse_eq_some_cases _ _ _ h3 with h4 | h4
        · rcases orElse_eq_some_cases _ _ _ h4 with h5 | h5
          · exact hm _ h5
          · exact hm _ h5
        · exact hm _ h4
      · exact hm _ h3
    · exact hm _ h2
  · exact hm _ h1

lemma bake_fallback_spec (src : List Char → Option Img) (hs : Bool)
    (st : BakerState) (entry : PaletteEntry) :
    (bake_fallback src hs st entry).2.cache = st.cache ∧
    (∀ k, keyCached st k → keyCached (bake_fallback src hs st entry).2 k) ∧
    (∀ fb ∈ (bake_fallback src hs st entry).1.faces,
      keyCached (bake_fallback src hs st entry).2 fb.2.texture_key ∧
        fb.2.positions.length = 4) := by
  obtain ⟨hc, hm, hv⟩ := cube_face_textures_spec src hs st entry
  obtain ⟨hhc, hhm, hhv⟩ :=
    hashed_color_cube_spec (cube_face_textures src hs st entry).2 entry
  simp only [bake_fallback]
  rcases hr : (cube_face_textures src hs st entry).1 with _ | tf
  · simp only []
    exact ⟨hhc.trans hc, fun k hk => hhm k (hm k hk), hhv⟩
  · simp only []
    split
    · next hne =>
      rcases hpk : ((((((dictGet? tf (chars "north")).orElse
          (fun _ => dictGet? tf (chars "east"))).orElse
          (fun _ => dictGet? tf (chars "west"))).orElse
          (fun _ => dictGet? tf (chars "south"))).orElse
          (fun _ => dictGet? tf (chars "up"))).orElse
          (fun _ => dictGet? tf (chars "down"))) with _ | pk
      · simp only []
        exact ⟨hhc.trans hc, fun k hk => hhm k (hm k hk), hhv⟩
      · simp only []
        refine ⟨hc, hm, fun fb hfb => ?_⟩
        obtain ⟨hlen, hkey⟩ := unit_cube_faces_values pk (some tf) fb hfb
        refine ⟨?_, hlen⟩
        rcases hkey with hk | ⟨o, ho, p, hp, hpv⟩
        · obtain ⟨p, hp, hppk⟩ := bake_primary_key_mem tf pk hpk
          rw [hk, ← hppk]
          exact hv tf hr p hp
        · obtain he := Option.some.inj ho
          rw [← hpv]
          exact hv tf hr p (he ▸ hp)
    · next hne =>
      exact ⟨hhc.trans hc, fun k hk => hhm k (hm k hk), hhv⟩

/-- Baker-state invariant: every baked block stored in the block cache only
carries faces whose texture key is present in the texture cache, each with 4
vertex positions. -/
def goodState (st : BakerState) : Prop :=
  ∀ kb ∈ st.cache, ∀ fb ∈ kb.2.faces,
    keyCached st fb.2.texture_key ∧ fb.2.positions.length = 4

lemma bake_blockstate_spec (src : List Char → Option Img) (hs : Bool)
    (st : BakerState) (entry : PaletteEntry) (hgood : goodState st) :
    goodState (bake_blockstate src hs st entry).2 ∧
    (∀ k, keyCached st k → keyCached (bake_blockstate src hs st entry).2 k) ∧
    (∀ fb ∈ (bake_blockstate src hs st entry).1.faces,
      keyCached (bake_blockstate src hs st entry).2 fb.2.texture_key ∧
        fb.2.positions.length = 4) := by
  simp only [bake_blockstate]
  rcases hr : dictGet? st.cache entry.cache_key with _ | b
  · simp only []
    obtain ⟨hc, hm, hv⟩ := bake_fallback_spec src hs st entry
    refine ⟨?_, fun k hk => hm k hk, fun fb hfb => hv fb hfb⟩
    intro kb hkb fb hfb
    have hkb2 : kb ∈ (bake_fallback src hs st entry).2.cache ++
        [(entry.cache_key, (bake_fallback src hs st entry).1)] := hkb
    rcases List.mem_append.mp hkb2 with h | h
    · rw [hc] at h
      obtain ⟨h1, h2⟩ := hgood kb h fb hfb
      exact ⟨hm _ h1, h2⟩
    · simp only [List.mem_singleton] at h
      rw [h] at hfb
      exact hv fb hfb
  · simp only []
    refine ⟨hgood, fun k hk => hk, fun fb hfb => ?_⟩
    obtain ⟨p, hp, hpb⟩ := dictGet?_mem _ _ _ hr
    rw [← hpb] at hfb
    exact hgood p hp fb hfb

lemma voxelFaces_spec (src : List Char → Option Img) (hs : Bool)
    (struct : StructureData) (st : BakerState) (x y z : Nat) (hgood : goodState st) :
    goodState (voxelFaces src hs struct st x y z).2 ∧
    (∀ k, keyCached st k → keyCached (voxelFaces src hs struct st x y z).2 k) ∧
    (∀ f ∈ (voxelFaces src hs struct st x y z).1,
      keyCached (voxelFaces src hs struct st x y z).2 f.texture_key ∧
        f.positions.length = 4) := by
  simp only [voxelFaces]
  split
  · exact ⟨hgood, fun k hk => hk, by simp⟩
  · obtain ⟨hg, hm, hv⟩ := bake_blockstate_spec src hs st
      (lookup_palette struct.palette (struct.voxels x y z)) hgood
    refine ⟨hg, hm, fun f hf => ?_⟩
    obtain ⟨d, hd, hfd⟩ := List.mem_filterMap.mp hf
    have hcore : ∀ bf, dictGet? (bake_blockstate src hs st
        (lookup_palette struct.palette (struct.voxels x y z))).1.faces d.1 = some bf →
        bf.offset (x : ℚ) (y : ℚ) (z : ℚ) = f →
        keyCached (bake_blockstate src hs st
          (lookup_palette struct.palette (struct.voxels x y z))).2 f.texture_key ∧
          f.positions.length = 4 := by
      intro bf hbf hbff
      obtain ⟨p, hp, hpv⟩ := dictGet?_mem _ _ _ hbf
      obtain ⟨h1, h2⟩ := hv p hp
      rw [hpv] at h1 h2
      rw [← hbff]
      refine ⟨h1, ?_⟩
      simp only [BakedFace.offset, List.length_map]
      exact h2
    split at hfd
    · split at hfd
      · obtain ⟨bf, hbf, hbff⟩ := Option.map_eq_some'.mp hfd
        exact hcore bf hbf hbff
      · cases hfd
    · split at hfd
      · obtain ⟨bf, hbf, hbff⟩ := Option.map_eq_some'.mp hfd
        exact hcore bf hbf hbff
      · cases hfd

lemma culled_fold_spec (src : List Char → Option Img) (hs : Bool)
    (struct : StructureData) :
    ∀ (cs : List (Nat × Nat × Nat)) (acc : List BakedFace × BakerState),
      goodState acc.2 →
      (∀ f ∈ acc.1, keyCached acc.2 f.texture_key ∧ f.positions.length = 4) →
      goodState (cs.foldl (fun acc c =>
        let r := voxelFaces src hs struct acc.2 c.1 c.2.1 c.2.2
        (acc.1 ++ r.1, r.2)) acc).2 ∧
      (∀ k, keyCached acc.2 k → keyCached (cs.foldl (fun acc c =>
        let r := voxelFaces src hs struct acc.2 c.1 c.2.1 c.2.2
        (acc.1 ++ r.1, r.2)) acc).2 k) ∧
      (∀ f ∈ (cs.foldl (fun acc c =>
          let r := voxelFaces src hs struct acc.2 c.1 c.2.1 c.2.2
          (acc.1 ++ r.1, r.2)) acc).1,
        keyCached (cs.foldl (fun acc c =>
          let r := voxelFaces src hs struct acc.2 c.1 c.2.1 c.2.2
          (acc.1 ++ r.1, r.2)) acc).2 f.texture_key ∧ f.positions.length = 4)
  | [], acc, hg, hf => ⟨hg, fun _ hk => hk, hf⟩
  | c :: cs, acc, hg, hf => by
    rw [List.foldl_cons]
    obtain ⟨hvg, hvm, hvv⟩ := voxelFaces_spec src hs struct acc.2 c.1 c.2.1 c.2.2 hg
    have hf2 : ∀ f ∈ acc.1 ++ (voxelFaces src hs struct acc.2 c.1 c.2.1 c.2.2).1,
        keyCached (voxelFaces src hs struct acc.2 c.1 c.2.1 c.2.2).2 f.texture_key ∧
          f.positions.length = 4 := by
      intro f hfm
      rcases List.mem_append.mp hfm with h | h
      · obtain ⟨h1, h2⟩ := hf f h
        exact ⟨hvm _ h1, h2⟩
      · exact hvv f h
    obtain ⟨ih1, ih2, ih3⟩ := culled_fold_spec src hs struct cs
      (acc.1 ++ (voxelFaces src hs struct acc.2 c.1 c.2.1 c.2.2).1,
        (voxelFaces src hs struct acc.2 c.1 c.2.1 c.2.2).2) hvg hf2
    exact ⟨ih1, fun k hk => ih2 k (hvm k hk), ih3⟩

lemma culled_faces_spec (src : List Char → Option Img) (hs : Bool)
    (struct : StructureData) (st0 : BakerState) (hgood : goodState st0) :
    goodState (culled_faces src hs struct st0).2 ∧
    (∀ k, keyCached st0 k → keyCached (culled_faces src hs struct st0).2 k) ∧
    (∀ f ∈ (culled_faces src hs struct st0).1,
      keyCached (culled_faces src hs struct st0).2 f.texture_key ∧
        f.positions.length = 4) := by
  simp only [culled_faces]
  exact culled_fold_spec src hs struct
    (allCoords struct.sizeX struct.sizeY struct.sizeZ) ([], st0) hgood (by simp)

lemma map_fst_enum_map {α β : Type} (l : List α) (f : Nat × α → β) :
    ((l.enum.map (fun ik => (ik.2, f ik))).map Prod.fst) = l := by
  rw [List.map_map]
  have he : (Prod.fst ∘ fun ik : Nat × α => (ik.2, f ik)) = Prod.snd := rfl
  rw [he, List.enum_map_snd]

lemma build_atlas_covers (images : List (List Char × Img)) (tile_size padding : Nat)
    (k : List Char) (hk : k ∈ images.map Prod.fst) :
    ∃ rect, dictGet? (build_atlas images tile_size padding).uv_rects k = some rect := by
  have hne : images ≠ [] := by
    rintro rfl
    simp at hk
  simp only [build_atlas, if_neg hne]
  apply dictGet?_isSome_of_mem
  rw [map_fst_enum_map]
  exact hk

lemma build_mesh_fold (atlas_uv : List (List Char × (ℚ × ℚ × ℚ × ℚ))) :
    ∀ (faces : List BakedFace) (acc : MeshBuffers × Nat),
      (∀ f ∈ faces, (∃ r, dictGet? atlas_uv f.texture_key = some r) ∧
        f.positions.length = 4) →
      (faces.foldl
        (fun (acc : MeshBuffers × Nat) face =>
          match dictGet? atlas_uv face.texture_key with
          | none => acc
          | some rect =>
            (⟨acc.1.positions ++ face.positions,
              acc.1.normals ++ [face.normal, face.normal, face.normal, face.normal],
              acc.1.uvs ++ face.uvs.map (fun p =>
                (rect.1 + (rect.2.2.1 - rect.1) * p.1, rect.2.1 + (rect.2.2.2 - rect.2.1) * p.2)),
              acc.1.indices ++ quadIndices.map (fun q => q + acc.2)⟩,
             acc.2 + 4)) acc).1.positions.length
          = acc.1.positions.length + 4 * faces.length ∧
      (faces.foldl
        (fun (acc : MeshBuffers × Nat) face =>
          match dictGet? atlas_uv face.texture_key with
          | none => acc
          | some rect =>
            (⟨acc.1.positions ++ face.positions,
              acc.1.normals ++ [face.normal, face.normal, face.normal, face.normal],
              acc.1.uvs ++ face.uvs.map (fun p =>
                (rect.1 + (rect.2.2.1 - rect.1) * p.1, rect.2.1 + (rect.2.2.2 - rect.2.1) * p.2)),
              acc.1.indices ++ quadIndices.map (fun q => q + acc.2)⟩,
             acc.2 + 4)) acc).1.indices.length
          = acc.1.indices.length + 6 * faces.length
  | [], acc, h => by simp
  | f :: fs, acc, h => by
    rw [List.foldl_cons]
    obtain ⟨⟨r, hr⟩, hlen⟩ := h f (List.mem_cons_self f fs)
    obtain ⟨ih1, ih2⟩ := build_mesh_fold atlas_uv fs _
      (fun g hg => h g (List.mem_cons_of_mem f hg))
    rw [ih1, ih2]
    simp only [hr, List.length_append, hlen, quadIndices, List.length_map,
      List.length_cons, List.length_nil]
    omega

lemma build_mesh_counts (faces : List BakedFace)
    (atlas_uv : List (List Char × (ℚ × ℚ × ℚ × ℚ)))
    (h : ∀ f ∈ faces, (∃ r, dictGet? atlas_uv f.texture_key = some r) ∧
      f.positions.length = 4) :
    (build_mesh faces atlas_uv).indices.length = 6 * faces.length ∧
    (build_mesh faces atlas_uv).positions.length = 4 * faces.length := by
  rcases he : faces with _ | ⟨f0, fs⟩
  · simp [build_mesh, emptyMesh]
  · rw [← he]
    have hne : faces ≠ [] := by
      rw [he]
      simp
    simp only [build_mesh, if_neg hne]
    obtain ⟨h10, h20⟩ := build_mesh_fold atlas_uv faces (emptyMesh, 0) h
    have h1 := h10.trans (Nat.zero_add _)
    have h2 := h20.trans (Nat.zero_add _)
    have hpos : (faces.foldl
        (fun (acc : MeshBuffers × Nat) face =>
          match dictGet? atlas_uv face.texture_key with
          | none => acc
          | some rect =>
            (⟨acc.1.positions ++ face.positions,
              acc.1.normals ++ [face.normal, face.normal, face.normal, face.normal],
              acc.1.uvs ++ face.uvs.map (fun p =>
                (rect.1 + (rect.2.2.1 - rect.1) * p.1, rect.2.1 + (rect.2.2.2 - rect.2.1) * p.2)),
              acc.1.indices ++ quadIndices.map (fun q => q + acc.2)⟩,
             acc.2 + 4)) (emptyMesh, 0)).1.positions ≠ [] := by
      intro hnil
      have hcopy := h1
      rw [hnil] at hcopy
      rw [he] at hcopy
      simp only [List.length_nil, List.length_cons] at hcopy
      omega
    rw [if_neg hpos]
    exact ⟨h2, h1⟩

/-- C9: starting from a fresh baker, every face emitted by the face culler
carries a texture key present in the final texture cache; the atlas built from
that same texture cache assigns a UV rectangle to every such key; and the mesh
assembler therefore drops no face — it emits exactly 6 indices and 4 vertex
positions per culled face. -/
theorem C9_no_faces_dropped (src : List Char → Option Img) (has_sources : Bool)
    (struct : StructureData) (tile_size padding : Nat) :
    (∀ f ∈ (culled_faces src has_sources struct initialBaker).1,
      keyCached (culled_faces src has_sources struct initialBaker).2 f.texture_key) ∧
    (∀ f ∈ (culled_faces src has_sources struct initialBaker).1,
      ∃ rect, dictGet? (build_atlas
          (culled_faces src has_sources struct initialBaker).2.texture_cache
          tile_size padding).uv_rects f.texture_key = some rect) ∧
    (build_mesh (culled_faces src has_sources struct initialBaker).1
        (build_atlas (culled_faces src has_sources struct initialBaker).2.texture_cache
          tile_size padding).uv_rects).indices.length
      = 6 * (culled_faces src has_sources struct initialBaker).1.length ∧
    (build_mesh (culled_faces src has_sources struct initialBaker).1
        (build_atlas (culled_faces src has_sources struct initialBaker).2.texture_cache
          tile_size padding).uv_rects).positions.length
      = 4 * (culled_faces src has_sources struct initialBaker).1.length := by
  obtain ⟨hg, hm, hv⟩ := culled_faces_spec src has_sources struct initialBaker
    (by intro kb hkb fb hfb; exact absurd hkb (List.not_mem_nil kb))
  have hcov : ∀ f ∈ (culled_faces src has_sources struct initialBaker).1,
      ∃ rect, dictGet? (build_atlas
        (culled_faces src has_sources struct initialBaker).2.texture_cache
        tile_size padding).uv_rects f.texture_key = some rect := by
    intro f hf
    exact build_atlas_covers _ tile_size padding _ (hv f hf).1
  obtain ⟨hi, hp⟩ := build_mesh_counts _ _ (fun f hf => ⟨hcov f hf, (hv f hf).2⟩)
  exact ⟨fun f hf => (hv f hf).1, hcov, hi, hp⟩

/-! ## Cache-key round trip (C10) -/

lemma hasChar_iff (c : Char) (s : List Char) : hasChar c s = true ↔ c ∈ s := by
  simp [hasChar]

lemma splitOnChar_ne_nil (c : Char) (l : List Char) : splitOnChar c l ≠ [] := by
  cases l with
  | nil => simp [splitOnChar]
  | cons x xs =>
    simp only [splitOnChar]
    split <;> simp

lemma splitOnChar_cons_self (c : Char) (l : List Char) :
    splitOnChar c (c :: l) = [] :: splitOnChar c l := by
  simp [splitOnChar]

lemma splitOnChar_append (c : Char) (p l : List Char) (hp : c ∉ p) :
    splitOnChar c (p ++ l)
      = (p ++ (splitOnChar c l).headD []) :: (splitOnChar c l).tail := by
  induction p with
  | nil =>
    simp only [List.nil_append]
    rcases hne : splitOnChar c l with _ | ⟨s, rest⟩
    · exact absurd hne (splitOnChar_ne_nil c l)
    · simp
  | cons x xs ih =>
    have hx : ¬ x = c := fun h => hp (h ▸ List.mem_cons_self x xs)
    have hxs : c ∉ xs := fun h => hp (List.mem_cons_of_mem x h)
    simp only [List.cons_append, splitOnChar, List.append_eq]
    rw [ih hxs, if_neg hx]
    simp

lemma splitOnChar_single (c : Char) (p : List Char) (hp : c ∉ p) :
    splitOnChar c p = [p] := by
  have h := splitOnChar_append c p [] hp
  simpa [splitOnChar] using h

lemma splitOnChar_pyJoin (c : Char) :
    ∀ parts : List (List Char), parts ≠ [] → (∀ p ∈ parts, c ∉ p) →
      splitOnChar c (pyJoin [c] parts) = parts
  | [], h, _ => absurd rfl h
  | [p], _, hall => by
    simp only [pyJoin]
    exact splitOnChar_single c p (hall p (by simp))
  | p :: q :: rest, _, hall => by
    have hp : c ∉ p := hall p (by simp)
    have ih := splitOnChar_pyJoin c (q :: rest) (by simp)
      (fun r hr => hall r (List.mem_cons_of_mem p hr))
    simp only [pyJoin]
    have e : p ++ [c] ++ pyJoin [c] (q :: rest)
        = p ++ (c :: pyJoin [c] (q :: rest)) := by simp
    rw [e, splitOnChar_append c p _ hp, splitOnChar_cons_self, ih]
    simp

lemma beforeChar_append (c : Char) (l t : List Char) (hl : c ∉ l) :
    beforeChar c (l ++ c :: t) = l := by
  induction l with
  | nil => simp [beforeChar]
  | cons x xs ih =>
    have hx : ¬ x = c := fun h => hl (h ▸ List.mem_cons_self x xs)
    have hxs : c ∉ xs := fun h => hl (List.mem_cons_of_mem x h)
    have hrec := ih hxs
    simp only [beforeChar] at hrec ⊢
    rw [List.cons_append, List.takeWhile_cons, hrec]
    simp [hx]

lemma afterChar_append (c : Char) (l t : List Char) (hl : c ∉ l) :
    afterChar c (l ++ c :: t) = t := by
  induction l with
  | nil => simp [afterChar]
  | cons x xs ih =>
    have hx : ¬ x = c := fun h => hl (h ▸ List.mem_cons_self x xs)
    have hxs : c ∉ xs := fun h => hl (List.mem_cons_of_mem x h)
    have hrec := ih hxs
    simp only [afterChar] at hrec ⊢
    rw [List.cons_append, List.dropWhile_cons]
    simp only [decide_not] at hrec ⊢
    simp [hx, hrec]

lemma dropWhile_of_all_neg (p : Char → Bool) :
    ∀ l : List Char, (∀ x ∈ l, p x = false) → List.dropWhile p l = l
  | [], _ => rfl
  | x :: xs, h => by
    rw [List.dropWhile_cons, h x (by simp)]
    simp

lemma rstripChar_append_single (c : Char) (l : List Char) (hl : c ∉ l) :
    rstripChar c (l ++ [c]) = l := by
  simp only [rstripChar, List.reverse_append, List.reverse_cons, List.reverse_nil,
    List.nil_append, List.singleton_append, List.dropWhile_cons]
  rw [if_pos (by simp)]
  rw [dropWhile_of_all_neg _ l.reverse
    (fun x hx => by
      simp only [decide_eq_false_iff_not]
      exact fun he => hl (he ▸ (List.mem_reverse.mp hx)))]
  simp

lemma insertLe_perm {α : Type} (le : α → α → Bool) (a : α) :
    ∀ l : List α, (insertLe le a l).Perm (a :: l)
  | [] => List.Perm.refl _
  | b :: l => by
    simp only [insertLe]
    split
    · exact List.Perm.refl _
    · exact ((insertLe_perm le a l).cons b).trans (List.Perm.swap a b l)

lemma sortLe_perm {α : Type} (le : α → α → Bool) :
    ∀ l : List α, (sortLe le l).Perm l
  | [] => List.Perm.refl _
  | a :: l => (insertLe_perm le a (sortLe le l)).trans ((sortLe_perm le l).cons a)

lemma key_unique {α β : Type} [DecidableEq α] :
    ∀ l : List (α × β), (l.map Prod.fst).Nodup →
      ∀ k v w, (k, v) ∈ l → (k, w) ∈ l → v = w
  | [], _, k, v, w, hv, _ => absurd hv (List.not_mem_nil _)
  | (a, b) :: l, hnd, k, v, w, hv, hw => by
    have hnd2 : (l.map Prod.fst).Nodup := (List.nodup_cons.mp hnd).2
    have hhead : a ∉ l.map Prod.fst := (List.nodup_cons.mp hnd).1
    rcases List.mem_cons.mp hv with h1 | h1 <;> rcases List.mem_cons.mp hw with h2 | h2
    · rw [Prod.mk.injEq] at h1 h2
      rw [h1.2, h2.2]
    · exfalso
      rw [Prod.mk.injEq] at h1
      exact hhead (h1.1 ▸ List.mem_map.mpr ⟨(k, w), h2, rfl⟩)
    · exfalso
      rw [Prod.mk.injEq] at h2
      exact hhead (h2.1 ▸ List.mem_map.mpr ⟨(k, v), h1, rfl⟩)
    · exact key_unique l hnd2 k v w h1 h2

lemma dictGet?_eq_some_iff {α β : Type} [DecidableEq α] (l : List (α × β))
    (hnd : (l.map Prod.fst).Nodup) (k : α) (v : β) :
    dictGet? l k = some v ↔ (k, v) ∈ l := by
  constructor
  · intro h
    simp only [dictGet?, Option.map_eq_some'] at h
    obtain ⟨p, hfind, hsnd⟩ := h
    have hmem := List.mem_of_find?_eq_some hfind
    have hkey := List.find?_some hfind
    simp only [decide_eq_true_eq] at hkey
    have : p = (k, v) := by
      rcases p with ⟨pk, pv⟩
      simp only at hkey hsnd
      rw [hkey, hsnd]
    exact this ▸ hmem
  · intro h
    simp only [dictGet?]
    rcases hfind : List.find? (fun p => decide (p.1 = k)) l with _ | p
    · exfalso
      have := List.find?_eq_none.mp hfind (k, v) h
      simp at this
    · have hmem := List.mem_of_find?_eq_some hfind
      have hkey := List.find?_some hfind
      simp only [decide_eq_true_eq] at hkey
      have hv : p.2 = v := by
        apply key_unique l hnd k p.2 v ?_ h
        rw [← hkey]
        exact hmem
      rw [hfind, Option.map_some']
      exact congrArg some hv

lemma dictGet?_perm {α β : Type} [DecidableEq α] (l1 l2 : List (α × β))
    (hperm : l1.Perm l2) (hnd : (l1.map Prod.fst).Nodup) (k : α) :
    dictGet? l1 k = dictGet? l2 k := by
  have hnd2 : (l2.map Prod.fst).Nodup := ((hperm.map Prod.fst).nodup_iff).mp hnd
  rcases h1 : dictGet? l1 k with _ | v
  · rcases h2 : dictGet? l2 k with _ | w
    · rfl
    · exfalso
      have hw := (dictGet?_eq_some_iff l2 hnd2 k w).mp h2
      have hw1 : (k, w) ∈ l1 := hperm.mem_iff.mpr hw
      have := (dictGet?_eq_some_iff l1 hnd k w).mpr hw1
      rw [h1] at this
      cases this
  · have hv := (dictGet?_eq_some_iff l1 hnd k v).mp h1
    have hv2 : (k, v) ∈ l2 := hperm.mem_iff.mp hv
    exact ((dictGet?_eq_some_iff l2 hnd2 k v).mpr hv2).symm

/-- Running the property-parsing fold of `_parse_palette_entry` over the
encoded `key=value` parts of a key-distinct pair list recovers exactly that
list (every insert is a fresh append). -/
lemma parse_fold (l : List (List Char × List Char)) :
    ∀ acc : List (List Char × List Char),
      (∀ kv ∈ l, kv.1 ≠ [] ∧ '=' ∉ kv.1) →
      (((acc ++ l).map Prod.fst)).Nodup →
      ((l.map (fun kv => kv.1 ++ '=' :: kv.2)).foldl
        (fun d part =>
          if part = [] then d
          else if ¬ hasChar '=' part then dictInsert d part (chars "true")
          else dictInsert d (beforeChar '=' part) (afterChar '=' part))
        acc) = acc ++ l := by
  induction l with
  | nil => intro acc _ _; simp
  | cons kv rest ih =>
    intro acc hcond hnd
    have hk := hcond kv (List.mem_cons_self kv rest)
    have hpart_ne : ¬ (kv.1 ++ '=' :: kv.2) = [] := by
      intro h
      have := congrArg List.length h
      simp at this
    have hpart_has : hasChar '=' (kv.1 ++ '=' :: kv.2) = true := by
      rw [hasChar_iff]
      exact List.mem_append_right _ (List.mem_cons_self _ _)
    have hbefore := beforeChar_append '=' kv.1 kv.2 hk.2
    have hafter := afterChar_append '=' kv.1 kv.2 hk.2
    have hknotin : kv.1 ∉ acc.map Prod.fst := by
      intro hmem
      rw [List.map_append] at hnd
      have := (List.nodup_append.mp hnd).2.2
      exact this hmem (by simp)
    have hany : (acc.any fun p => decide (p.1 = kv.1)) = false := by
      rw [List.any_eq_false]
      intro p hp
      simp only [decide_eq_true_eq]
      intro he
      exact hknotin (he ▸ List.mem_map.mpr ⟨p, hp, rfl⟩)
    have hinsert : dictInsert acc kv.1 kv.2 = acc ++ [kv] := by
      simp [dictInsert, hany]
    rw [List.map_cons, List.foldl_cons, if_neg hpart_ne, if_neg (by simp [hpart_has]),
      hbefore, hafter, hinsert]
    have hres := ih (acc ++ [kv])
      (fun p hp => hcond p (List.mem_cons_of_mem kv hp))
      (by simpa using hnd)
    rw [hres]
    simp

/-- **C10.** Round trip of the canonical block identity: for every block
descriptor whose identifier contains no `[` and whose property keys and
values are non-empty, contain none of `[`, `]`, `,`, `=`, and have distinct
keys (a mapping), parsing the descriptor's cache-key string yields a
descriptor with the same identifier and the same property mapping. -/
theorem C10_cache_key_roundtrip (e : PaletteEntry)
    (hname : '[' ∉ e.namespaced_name)
    (hkv : ∀ kv ∈ e.properties, kv.1 ≠ [] ∧ kv.2 ≠ [] ∧
      '[' ∉ kv.1 ∧ ']' ∉ kv.1 ∧ ',' ∉ kv.1 ∧ '=' ∉ kv.1 ∧
      '[' ∉ kv.2 ∧ ']' ∉ kv.2 ∧ ',' ∉ kv.2 ∧ '=' ∉ kv.2)
    (hnodup : (e.properties.map Prod.fst).Nodup) :
    (parse_palette_entry e.cache_key).namespaced_name = e.namespaced_name ∧
    ∀ k, dictGet? (parse_palette_entry e.cache_key).properties k
        = dictGet? e.properties k := by
  by_cases hp : e.properties = []
  · have hkey : e.cache_key = e.namespaced_name := by
      simp [PaletteEntry.cache_key, hp]
    have hparse : parse_palette_entry e.cache_key = ⟨e.namespaced_name, []⟩ := by
      rw [hkey]
      simp only [parse_palette_entry]
      rw [if_pos (fun h => hname ((hasChar_iff _ _).mp h))]
    rw [hparse, hp]
    exact ⟨rfl, fun k => rfl⟩
  · set sorted := sortLe pairLe e.properties with hsorted
    have hperm : sorted.Perm e.properties := sortLe_perm pairLe e.properties
    have hsnodup : (sorted.map Prod.fst).Nodup :=
      ((hperm.map Prod.fst).nodup_iff).mpr hnodup
    have hskv : ∀ kv ∈ sorted, kv.1 ≠ [] ∧ kv.2 ≠ [] ∧
        '[' ∉ kv.1 ∧ ']' ∉ kv.1 ∧ ',' ∉ kv.1 ∧ '=' ∉ kv.1 ∧
        '[' ∉ kv.2 ∧ ']' ∉ kv.2 ∧ ',' ∉ kv.2 ∧ '=' ∉ kv.2 :=
      fun kv h => hkv kv (hperm.mem_iff.mp h)
    have hsne : sorted ≠ [] := by
      intro h
      apply hp
      have := hperm.length_eq
      rw [h] at this
      exact List.length_eq_zero.mp this.symm
    set parts := sorted.map (fun kv => kv.1 ++ '=' :: kv.2) with hparts
    have hpartsne : parts ≠ [] := by
      rw [hparts]
      simpa using hsne
    have hnocomma : ∀ p ∈ parts, ',' ∉ p := by
      intro p hpmem
      rw [hparts] at hpmem
      obtain ⟨kv, hkvmem, rfl⟩ := List.mem_map.mp hpmem
      have h := hskv kv hkvmem
      intro hc
      rcases List.mem_append.mp hc with h1 | h1
      · exact h.2.2.2.2.1 h1
      · rcases List.mem_cons.mp h1 with h2 | h2
        · cases h2
        · exact h.2.2.2.2.2.2.2.2.1 h2
    set body := pyJoin (chars ",") parts with hbody
    have hnorb : ']' ∉ body := by
      rw [hbody]
      intro hc
      have : ∀ ps : List (List Char), ']' ∈ pyJoin (chars ",") ps →
          ∃ p ∈ ps, ']' ∈ p := by
        intro ps
        induction ps with
        | nil => intro h; cases h
        | cons a as iha =>
          rcases as with _ | ⟨b, bs⟩
          · intro h
            exact ⟨a, by simp, h⟩
          · intro h
            simp only [pyJoin] at h
            rcases List.mem_append.mp h with h1 | h1
            · rcases List.mem_append.mp h1 with h2 | h2
              · exact ⟨a, by simp, h2⟩
              · simp [chars] at h2
            · obtain ⟨p, hpm, hin⟩ := iha h1
              exact ⟨p, List.mem_cons_of_mem a hpm, hin⟩
      obtain ⟨p, hpmem, hin⟩ := this parts hc
      rw [hparts] at hpmem
      obtain ⟨kv, hkvmem, rfl⟩ := List.mem_map.mp hpmem
      have h := hskv kv hkvmem
      rcases List.mem_append.mp hin with h1 | h1
      · exact h.2.2.2.1 h1
      · rcases List.mem_cons.mp h1 with h2 | h2
        · cases h2
        · exact h.2.2.2.2.2.2.2.1 h2
    have hmapeq : ∀ p : List Char × List Char,
        p.1 ++ chars "=" ++ p.2 = p.1 ++ '=' :: p.2 := by
      intro p
      show p.1 ++ ['='] ++ p.2 = _
      simp
    have hkeyeq : e.cache_key = e.namespaced_name ++ '[' :: (body ++ [']']) := by
      simp only [PaletteEntry.cache_key, if_neg hp, hmapeq, ← hsorted, ← hparts, ← hbody]
      rw [show chars "[" = ['\x5b'] from rfl, show chars "]" = ['\x5d'] from rfl]
      simp [List.append_assoc]
    have hhasbr : hasChar '[' e.cache_key = true := by
      rw [hasChar_iff, hkeyeq]
      exact List.mem_append_right _ (List.mem_cons_self _ _)
    have hbefore : beforeChar '[' e.cache_key = e.namespaced_name := by
      rw [hkeyeq]
      exact beforeChar_append '[' _ _ hname
    have hafter : afterChar '[' e.cache_key = body ++ [']'] := by
      rw [hkeyeq]
      exact afterChar_append '[' _ _ hname
    have hstrip : rstripChar ']' (afterChar '[' e.cache_key) = body := by
      rw [hafter]
      exact rstripChar_append_single ']' body hnorb
    have hsplit : splitOnChar ',' (rstripChar ']' (afterChar '[' e.cache_key)) = parts := by
      rw [hstrip, hbody]
      exact splitOnChar_pyJoin ',' parts hpartsne hnocomma
    have hfold := parse_fold sorted []
      (fun kv h => ⟨(hskv kv h).1, (hskv kv h).2.2.2.2.2.1⟩)
      (by simpa using hsnodup)
    have hparse : parse_palette_entry e.cache_key = ⟨e.namespaced_name, sorted⟩ := by
      simp only [parse_palette_entry]
      rw [if_neg (by simp [hhasbr]), hbefore, hsplit]
      rw [← hparts] at hfold
      rw [hfold]
      simp
    rw [hparse]
    exact ⟨rfl, fun k => dictGet?_perm sorted e.properties hperm hsnodup k⟩

/-- **C10, witness.** The round trip at a concrete descriptor with two
properties. -/
theorem C10_cache_key_roundtrip_witness :
    ('[' ∉ (⟨chars "minecraft:oak_log",
        [(chars "lit", chars "true"), (chars "axis", chars "x")]⟩
          : PaletteEntry).namespaced_name) ∧
    ((parse_palette_entry (⟨chars "minecraft:oak_log",
        [(chars "lit", chars "true"), (chars "axis", chars "x")]⟩
          : PaletteEntry).cache_key).namespaced_name
        = chars "minecraft:oak_log" ∧
      ∀ k, dictGet? (parse_palette_entry (⟨chars "minecraft:oak_log",
          [(chars "lit", chars "true"), (chars "axis", chars "x")]⟩
            : PaletteEntry).cache_key).properties k
        = dictGet? [(chars "lit", chars "true"), (chars "axis", chars "x")] k) :=
  ⟨by decide,
   C10_cache_key_roundtrip
     ⟨chars "minecraft:oak_log", [(chars "lit", chars "true"), (chars "axis", chars "x")]⟩
     (by decide) (by decide) (by decide)⟩

end BuilderGPT
